import Mathlib

/-!
# beepboop: the target-reachability checking core

A shallow embedding of `internal/check/check.go`: mode resolution
(`ResolveModeAndTarget`), status-set parsing (`ParseExpectedStatuses`), the retrying
check (`CheckWithRetries`), the HTTP check with its redirect policy (`checkHTTP`,
`NewChecker`), the ICMP check with its ping arguments (`checkICMP`, `buildPingArgs`),
and of the exit codes of `cmd/beepboop/main.go`, followed by the properties proved of
them.

Go strings are modelled by `String` (sequences of Unicode scalar values, that is
valid UTF-8 text).  The functions of the Go standard library the code calls are
modelled by their documented behaviour: `strings.TrimSpace`, `strings.ToLower`,
`strings.HasPrefix`, `strings.Split`, `strconv.Atoi`, `Duration.Seconds` and the
redirect loop of `http.Client.Do` as definitions; `url.Parse`, `net.ParseIP`,
`runtime.GOOS` and the outcome of running the ping command as parameters.  Go's `int` is
the 64-bit one.
-/

namespace BeepBoop

/-- Equality of results is decidable, so that the definitions evaluate on examples. -/
instance exceptDecidableEq {ε α : Type} [DecidableEq ε] [DecidableEq α] :
    DecidableEq (Except ε α)
  | .ok a, .ok b => if h : a = b then isTrue (by rw [h]) else isFalse (by simpa using h)
  | .error a, .error b => if h : a = b then isTrue (by rw [h]) else isFalse (by simpa using h)
  | .ok _, .error _ => isFalse (by simp)
  | .error _, .ok _ => isFalse (by simp)

/-! ## Standard-library string functions -/

/-- Go `unicode.IsSpace`: the runes with the Unicode White_Space property. -/
def isSpace (c : Char) : Bool :=
  let n := c.toNat
  n == 0x09 || n == 0x0A || n == 0x0B || n == 0x0C || n == 0x0D || n == 0x20 ||
  n == 0x85 || n == 0xA0 || n == 0x1680 || (0x2000 ≤ n && n ≤ 0x200A) ||
  n == 0x2028 || n == 0x2029 || n == 0x202F || n == 0x205F || n == 0x3000

/-- Go `strings.TrimSpace` on the runes of a string: leading and trailing white space removed. -/
def trimSpaceChars (l : List Char) : List Char :=
  (l.dropWhile isSpace).rdropWhile isSpace

/-- Go `strings.TrimSpace`. -/
def TrimSpace (s : String) : String := ⟨trimSpaceChars s.data⟩

/-- Go `unicode.ToLower` as far as the callers can observe it.  ASCII capitals go to
their small letters; U+0130 and U+212A are the two runes outside ASCII whose lower case
is an ASCII letter (`i` and `k`).  Every other rune outside ASCII has a lower case
outside ASCII and is kept as it is: the result is only ever compared with ASCII
literals. -/
def toLowerRune (c : Char) : Char :=
  if 65 ≤ c.toNat ∧ c.toNat ≤ 90 then Char.ofNat (c.toNat + 32)
  else if c.toNat = 0x130 then 'i'
  else if c.toNat = 0x212A then 'k'
  else c

/-- Go `strings.ToLower`. -/
def ToLower (s : String) : String := ⟨s.data.map toLowerRune⟩

/-- Go `strings.HasPrefix`. -/
def HasPrefix (s pre : String) : Bool := pre.data.isPrefixOf s.data

/-! ## Mode resolution -/

/-- Go `type Mode string`. -/
abbrev Mode := String

def ModeICMP : Mode := "icmp"

def ModeHTTP : Mode := "http"

def ModeHTTPS : Mode := "https"

/-- The one field of `url.URL` the resolver reads. -/
structure URL where
  Scheme : String
deriving DecidableEq, Repr

/-- The three results of `ResolveModeAndTarget`: mode, normalized target, error
(`none` is Go's `nil`). -/
structure Resolved where
  mode : Mode
  target : String
  err : Option String
deriving DecidableEq, Repr

/-- `ResolveModeAndTarget` of check.go.  `urlParse` stands for `url.Parse`
(`Except.error` when it returns an error). -/
def ResolveModeAndTarget (urlParse : String → Except String URL)
    (modeText : String) (target : String) : Resolved :=
  let trimmedTarget := TrimSpace target
  if trimmedTarget = "" then ⟨"", "", some "target is empty"⟩
  else
    let mode := ToLower (TrimSpace modeText)
    if mode = "icmp" then ⟨ModeICMP, trimmedTarget, none⟩
    else if mode = "http" then
      if HasPrefix trimmedTarget "http://" then ⟨ModeHTTP, trimmedTarget, none⟩
      else if HasPrefix trimmedTarget "https://" then
        ⟨"", "", some "--mode=http cannot use https target"⟩
      else ⟨ModeHTTP, "http://" ++ trimmedTarget, none⟩
    else if mode = "https" then
      if HasPrefix trimmedTarget "https://" then ⟨ModeHTTPS, trimmedTarget, none⟩
      else if HasPrefix trimmedTarget "http://" then
        ⟨"", "", some "--mode=https cannot use http target"⟩
      else ⟨ModeHTTPS, "https://" ++ trimmedTarget, none⟩
    else if mode = "auto" then
      if HasPrefix trimmedTarget "http://" then ⟨ModeHTTP, trimmedTarget, none⟩
      else if HasPrefix trimmedTarget "https://" then ⟨ModeHTTPS, trimmedTarget, none⟩
      else
        match urlParse trimmedTarget with
        | .ok parsed =>
          if parsed.Scheme ≠ "" ∧ (parsed.Scheme = "http" ∨ parsed.Scheme = "https") then
            if parsed.Scheme = "http" then ⟨ModeHTTP, trimmedTarget, none⟩
            else ⟨ModeHTTPS, trimmedTarget, none⟩
          else ⟨ModeICMP, trimmedTarget, none⟩
        | .error _ => ⟨ModeICMP, trimmedTarget, none⟩
    else ⟨"", "", some ("unsupported mode: " ++ modeText)⟩

/-- The scheme splitting at the head of `url.Parse` (`getScheme` of net/url): letters,
then letters, digits, `+`, `-`, `.` up to the first colon.  `none` is the error
"missing protocol scheme". -/
def getScheme (rawURL : List Char) : List Char → Option (List Char)
  | [] => some []
  | c :: rest =>
    let n := c.toNat
    if (97 ≤ n ∧ n ≤ 122) ∨ (65 ≤ n ∧ n ≤ 90) then getScheme rawURL rest
    else if (48 ≤ n ∧ n ≤ 57) ∨ c = '+' ∨ c = '-' ∨ c = '.' then
      if rest.length + 1 = rawURL.length then some [] else getScheme rawURL rest
    else if c = ':' then
      if rest.length + 1 = rawURL.length then none
      else some (rawURL.take (rawURL.length - (rest.length + 1)))
    else some []

/-- A stand-in for `url.Parse` used to run the resolver on examples: the scheme is split
off and lower-cased as `url.Parse` does, and what follows the scheme is accepted as it
is. -/
def schemeOnlyParse (rawURL : String) : Except String URL :=
  match getScheme rawURL.data rawURL.data with
  | none => .error "missing protocol scheme"
  | some scheme => .ok ⟨ToLower ⟨scheme⟩⟩

/-! ## Status-set parsing -/

/-- Go `strings.Split(s, sep)` for a one-rune separator, on the runes of `s`: the fields
between the separators, in order (one empty field for the empty text). -/
def splitChars (sep : Char) : List Char → List (List Char)
  | [] => [[]]
  | c :: cs =>
    if c = sep then [] :: splitChars sep cs
    else
      match splitChars sep cs with
      | [] => [[c]]
      | field :: fields => (c :: field) :: fields

/-- Go `strings.Split(s, sep)` for a one-rune separator. -/
def Split (s : String) (sep : Char) : List String := (splitChars sep s.data).map String.mk

/-- A decimal digit, as `strconv.Atoi` tests it: `'0' <= ch && ch <= '9'`. -/
abbrev isDigit (c : Char) : Prop := 48 ≤ c.toNat ∧ c.toNat ≤ 57

/-- The decimal digits of `strconv.Atoi`, most significant first, folded into `acc`;
`none` on a rune that is not a digit. -/
def parseDigits : List Char → Nat → Option Nat
  | [], acc => some acc
  | ch :: rest, acc =>
    if isDigit ch then parseDigits rest (acc * 10 + (ch.toNat - 48))
    else none

/-- The width of Go's `int` on the 64-bit platforms. -/
def intSize : Nat := 64

/-- Go `strconv.Atoi`: an optional sign followed by one or more decimal digits, with a
value that fits `int`; `none` stands for its syntax and range errors. -/
def Atoi (s : String) : Option Int :=
  match s.data with
  | [] => none
  | c :: cs =>
    let digits := if c = '-' ∨ c = '+' then cs else c :: cs
    if digits = [] then none
    else
      match parseDigits digits 0 with
      | none => none
      | some n =>
        let v : Int := if c = '-' then -(n : Int) else (n : Int)
        if -(2 : Int) ^ (intSize - 1) ≤ v ∧ v ≤ (2 : Int) ^ (intSize - 1) - 1 then some v
        else none

/-- The two errors of `ParseExpectedStatuses`, with the value each message prints:
`%q is not a valid status code` and `%d is outside valid HTTP status range`. -/
inductive StatusError where
  | notValid (statusText : String)
  | outsideRange (statusCode : Int)
deriving DecidableEq, Repr

/-- The loop of `ParseExpectedStatuses` over the split values, `statuses` being the map
built so far. -/
def parseStatusValues : List String → Finset Int → Except StatusError (Finset Int)
  | [], statuses => .ok statuses
  | value :: values, statuses =>
    let statusText := TrimSpace value
    if statusText = "" then parseStatusValues values statuses
    else
      match Atoi statusText with
      | none => .error (.notValid statusText)
      | some statusCode =>
        if statusCode < 100 ∨ statusCode > 599 then .error (.outsideRange statusCode)
        else parseStatusValues values (insert statusCode statuses)

/-- `ParseExpectedStatuses` of check.go; the map `map[int]struct{}` is the finite set of
its keys. -/
def ParseExpectedStatuses (input : String) : Except StatusError (Finset Int) :=
  let trimmed := TrimSpace input
  if trimmed = "" then .ok ∅
  else parseStatusValues (Split trimmed ',') ∅

/-! ## The retrying check -/

/-- Go's arithmetic on `int`: the exact result wrapped to `intSize` bits, two's
complement. -/
def wrapInt (x : Int) : Int :=
  (x + 2 ^ (intSize - 1)) % 2 ^ intSize - 2 ^ (intSize - 1)

/-- What a call of `CheckWithRetries` does, as seen from outside: a call of `CheckOnce`,
a wait that ran its full `time.After` duration (in milliseconds), or a wait cut short by
`ctx.Done()`. -/
inductive Event where
  | checkOnce
  | wait (ms : Nat)
  | cancelled
deriving DecidableEq, Repr

/-- The surroundings of a call of `CheckWithRetries`.  `checkOnce k` is what the call of
`CheckOnce` made in iteration `k` of the loop returns (`isUp`, `err`); `ctxDone k` says
which case the `select` after that call takes: `some e` for `<-ctx.Done()`, with `e` the
value of `ctx.Err()`, and `none` for `<-time.After(150 * time.Millisecond)`. -/
structure Env where
  checkOnce : Nat → Bool × Option String
  ctxDone : Nat → Option String

/-- The results of `CheckWithRetries`, with the events of the call in order. -/
structure RetryResult where
  isUp : Bool
  err : Option String
  events : List Event
deriving DecidableEq, Repr

/-- The loop of `CheckWithRetries` from iteration `attempt` on, followed by the two
returns after it.  `fuel` bounds the number of iterations still to run; `none` means it
ran out. -/
def retryLoop (env : Env) (attempts : Int) :
    Nat → Int → Option String → List Event → Option RetryResult
  | 0, _, _, _ => none
  | fuel + 1, attempt, lastErr, events =>
    if attempt < attempts then
      let outcome := env.checkOnce attempt.toNat
      let events := events ++ [Event.checkOnce]
      if outcome.2 = none ∧ outcome.1 = true then some ⟨true, none, events⟩
      else
        let lastErr := if outcome.2 ≠ none then outcome.2 else lastErr
        if attempt < wrapInt (attempts - 1) then
          match env.ctxDone attempt.toNat with
          | some ctxErr => some ⟨false, some ctxErr, events ++ [Event.cancelled]⟩
          | none =>
            retryLoop env attempts fuel (wrapInt (attempt + 1)) lastErr
              (events ++ [Event.wait 150])
        else retryLoop env attempts fuel (wrapInt (attempt + 1)) lastErr events
    else if lastErr ≠ none then some ⟨false, lastErr, events⟩
    else some ⟨false, none, events⟩

/-- `Checker.CheckWithRetries` of check.go, for `retries` a value of Go's `int`. -/
def CheckWithRetries (env : Env) (retries : Int) : Option RetryResult :=
  let attempts := wrapInt (retries + 1)
  retryLoop env attempts (attempts.toNat + 1) 0 none []

/-! ## Notions used in the statements -/

/-- White space at the end of a text removed (the right half of `TrimSpace`). -/
def trimTrailingSpace (s : String) : String := ⟨s.data.rdropWhile isSpace⟩

/-- The failure condition of C1 as the claim words it: the mode hint is compared
case-insensitively, as it is given. -/
def claimedFailure (modeText target : String) : Prop :=
  TrimSpace target = "" ∨
  (ToLower modeText = "http" ∧ HasPrefix (TrimSpace target) "https://" = true) ∨
  (ToLower modeText = "https" ∧ HasPrefix (TrimSpace target) "http://" = true) ∨
  (ToLower modeText ≠ "auto" ∧ ToLower modeText ≠ "icmp" ∧ ToLower modeText ≠ "http" ∧
    ToLower modeText ≠ "https")

/-- The failure condition of the code: the mode hint is trimmed, then lower-cased. -/
def resolveFails (modeText target : String) : Prop :=
  TrimSpace target = "" ∨
  (ToLower (TrimSpace modeText) = "http" ∧ HasPrefix (TrimSpace target) "https://" = true) ∨
  (ToLower (TrimSpace modeText) = "https" ∧ HasPrefix (TrimSpace target) "http://" = true) ∨
  (ToLower (TrimSpace modeText) ≠ "auto" ∧ ToLower (TrimSpace modeText) ≠ "icmp" ∧
    ToLower (TrimSpace modeText) ≠ "http" ∧ ToLower (TrimSpace modeText) ≠ "https")

/-- The fields of a text, each trimmed, the empty ones left out: what the loop of
`ParseExpectedStatuses` looks at. -/
def textsOf (l : List Char) : List (List Char) :=
  ((splitChars ',' l).map trimSpaceChars).filter (fun t => t ≠ [])

/-- The trimmed, non-empty texts among the split values: the ones the loop parses. -/
def statusTexts (values : List String) : List String :=
  (values.map TrimSpace).filter (fun t => t ≠ "")

/-- The loop of `ParseExpectedStatuses` on texts already trimmed and non-empty. -/
def parseTexts : List String → Finset Int → Except StatusError (Finset Int)
  | [], statuses => .ok statuses
  | statusText :: rest, statuses =>
    match Atoi statusText with
    | none => .error (.notValid statusText)
    | some statusCode =>
      if statusCode < 100 ∨ statusCode > 599 then .error (.outsideRange statusCode)
      else parseTexts rest (insert statusCode statuses)

/-- The decimal numeral of a natural number, as `Nat.repr` writes it. -/
def decimal (n : Nat) : List Char := (Nat.repr n).data

/-- One token of a status list: the code, with white space before and after it. -/
structure StatusToken where
  before : List Char
  code : Nat
  after : List Char

/-- The token is a code in [100, 599] surrounded by white space only. -/
def StatusToken.wellFormed (t : StatusToken) : Prop :=
  (∀ c ∈ t.before, isSpace c = true) ∧ (∀ c ∈ t.after, isSpace c = true) ∧
    100 ≤ t.code ∧ t.code ≤ 599

/-- The token as text: the code in decimal between its white space. -/
def StatusToken.chars (t : StatusToken) : List Char := t.before ++ (decimal t.code ++ t.after)

/-- Texts joined with commas. -/
def joinComma : List (List Char) → List Char
  | [] => []
  | [t] => t
  | t :: u :: rest => t ++ ',' :: joinComma (u :: rest)

/-- The tokens written out and joined with commas. -/
def renderStatuses (ts : List StatusToken) : String := ⟨joinComma (ts.map StatusToken.chars)⟩

/-- The tokens of `200 ,<tab>301, 200`. -/
def sampleTokens : List StatusToken :=
  [⟨[], 200, [' ']⟩, ⟨['\t'], 301, []⟩, ⟨[' '], 200, []⟩]

/-- The tokens of `301,200`. -/
def sampleTokensReordered : List StatusToken := [⟨[], 301, []⟩, ⟨[], 200, []⟩]

/-- A text the loop accepts: `strconv.Atoi` reads it as an integer in [100, 599]. -/
def validStatusText (statusText : String) : Bool :=
  match Atoi statusText with
  | some statusCode => decide (100 ≤ statusCode ∧ statusCode ≤ 599)
  | none => false

/-- The reading of C7 as stated: some token of the trimmed input, once trimmed, is not an
integer in [100, 599]. -/
def someTokenRejected (input : String) : Prop :=
  ∃ value ∈ Split (TrimSpace input) ',', validStatusText (TrimSpace value) = false

/-- The largest value of Go's `int`. -/
def maxInt : Int := 2 ^ (intSize - 1) - 1

/-- The events of `n` attempts with a full wait between any two of them. -/
def attemptsWithWaits : Nat → List Event
  | 0 => []
  | 1 => [Event.checkOnce]
  | n + 2 => Event.checkOnce :: Event.wait 150 :: attemptsWithWaits (n + 1)

/-- The error kept in `lastErr` after the `n` attempts from `a` on, starting from
`lastErr`: that of the latest attempt that returned one. -/
def lastErrAfter (env : Env) : Nat → Nat → Option String → Option String
  | _, 0, lastErr => lastErr
  | a, n + 1, lastErr =>
    lastErrAfter env (a + 1) n
      (if (env.checkOnce a).2 ≠ none then (env.checkOnce a).2 else lastErr)

/-- An attempt that ends the loop: up with no error. -/
def succeeds (env : Env) (k : Nat) : Prop :=
  (env.checkOnce k).2 = none ∧ (env.checkOnce k).1 = true

/-- A checker whose single check fails with an error every time, under a context that
is never cancelled. -/
def alwaysFailing : Env :=
  ⟨fun _ => (false, some "connection refused"), fun _ => none⟩

/-- A checker whose single check reports up every time. -/
def alwaysUp : Env := ⟨fun _ => (true, none), fun _ => none⟩

/-- A checker that fails with an error at the first attempt and is up from the second
on. -/
def upAtSecond : Env :=
  ⟨fun k => if k = 0 then (false, some "connection refused") else (true, none),
    fun _ => none⟩


/-- A checker whose first attempt fails with an error and whose later attempts report
down with no error. -/
def errorThenDown : Env :=
  ⟨fun k => if k = 0 then (false, some "connection refused") else (false, none),
    fun _ => none⟩

/-- A checker that fails with an error at every attempt, under a context cancelled during
the wait that follows the fourth attempt. -/
def cancelledInFourthWait : Env :=
  ⟨fun _ => (false, some "connection refused"),
    fun k => if k = 3 then some "context canceled" else none⟩

/-! ## The HTTP check -/

/-- The `CheckRedirect` policy that `NewChecker` installs in the HTTP client.  `via`
holds the requests made so far, oldest first; `none` is Go's `nil`. -/
def CheckRedirect {Request : Type} (_request : Request) (via : List Request) :
    Option String :=
  if via.length ≥ 10 then some "stopped after 10 redirects" else none

/-- What a server answers to a request, as the client sees it: a redirect to another
request, or a final response with its status code. -/
inductive Response (Request : Type) where
  | redirect (next : Request)
  | status (code : Int)

/-- The redirect loop of `http.Client.Do`: the request is sent; on a redirect the policy
is consulted with the next request and the requests made so far, the one just answered
included, and the next request is sent only if the policy returns `nil`; otherwise `Do`
fails with an error that wraps the error of the policy, here the text of that error.
`fuel` bounds the number of requests; `none` means it ran out. -/
def clientDo {Request : Type} (checkRedirect : Request → List Request → Option String)
    (server : Request → Response Request) :
    Nat → Request → List Request → Option (Except String Int)
  | 0, _, _ => none
  | fuel + 1, request, reqs =>
    match server request with
    | .status code => some (.ok code)
    | .redirect next =>
      match checkRedirect next (reqs ++ [request]) with
      | some err => some (.error err)
      | none => clientDo checkRedirect server fuel next (reqs ++ [request])

/-- `Checker.checkHTTP` of check.go.  `newRequest` is the error of
`http.NewRequestWithContext` (`none` for `nil`), `doResult` what `httpClient.Do` returns:
an error, or a response with its final status code. -/
def checkHTTP (ExpectedStatuses : Finset Int) (newRequest : Option String)
    (doResult : Except String Int) : Bool × Option String :=
  match newRequest with
  | some err => (false, some err)
  | none =>
    match doResult with
    | .error err => (false, some err)
    | .ok StatusCode =>
      if ExpectedStatuses.card = 0 then
        (decide (StatusCode ≥ 200 ∧ StatusCode ≤ 399), none)
      else (decide (StatusCode ∈ ExpectedStatuses), none)

/-- A server that answers the first `n` requests of a chain with a redirect to the next
one and the request after them with the status `code`; a request is named by its place
in the chain. -/
def redirectChain (n : Nat) (code : Int) (request : Nat) : Response Nat :=
  if request < n then .redirect (request + 1) else .status code

/-- The HTTP check of a checker made by `NewChecker` against a server: the client's
redirect loop under the checker's policy, then the status test. -/
def checkHTTPAgainst (ExpectedStatuses : Finset Int) (server : Nat → Response Nat)
    (fuel : Nat) : Option (Bool × Option String) :=
  (clientDo CheckRedirect server fuel 0 []).map (checkHTTP ExpectedStatuses none)

/-! ## The ping arguments -/

/-- Go `time.Duration`: a count of nanoseconds in an `int64`. -/
abbrev Duration := Int

/-- Go `Duration.Milliseconds`: `int64(d) / 1e6`, the integer division that truncates
towards zero. -/
def Milliseconds (d : Duration) : Int := Int.tdiv d 1000000

/-- A finite `float64`: `mant * 2 ^ exp`, negated when `neg`; `mant` is 0 or has exactly
53 bits. -/
structure Float64 where
  neg : Bool
  mant : Nat
  exp : Int
deriving DecidableEq, Repr

/-- The number of binary digits of `n` (for `n` below `2 ^ fuel`). -/
def bitLength : Nat → Nat → Nat
  | 0, _ => 0
  | fuel + 1, n => if n = 0 then 0 else bitLength fuel (n / 2) + 1

/-- The quotient `p / q` rounded to an integer, to nearest, ties to even. -/
def divRoundEven (p q : Nat) : Nat :=
  let m := p / q
  let r := p % q
  if 2 * r > q ∨ (2 * r = q ∧ m % 2 = 1) then m + 1 else m

/-- The positive rational `num / den` rounded to the nearest `float64` (IEEE 754 round
to nearest, ties to even), as a 53-bit significand and an exponent; the values met here
are far from the subnormal and the overflow ranges. -/
def roundToFloat64 (num den : Nat) : Nat × Int :=
  let e0 : Int := (bitLength 256 num : Int) - (bitLength 256 den : Int) - 53
  let scaled : Int → Nat × Nat := fun e =>
    if e ≥ 0 then (num, den * 2 ^ e.toNat) else (num * 2 ^ (-e).toNat, den)
  let e : Int := if (scaled e0).1 / (scaled e0).2 ≥ 2 ^ 53 then e0 + 1 else e0
  let m := divRoundEven (scaled e).1 (scaled e).2
  if m = 2 ^ 53 then (2 ^ 52, e + 1) else (m, e)

/-- Go `Duration.Seconds`: `float64(sec) + float64(nsec)/1e9` with `sec := d / Second`
and `nsec := d % Second`.  The two conversions are exact; the division and the addition
each round to the nearest `float64`. -/
def Seconds (d : Duration) : Float64 :=
  let sec := d.natAbs / 1000000000
  let nsec := d.natAbs % 1000000000
  if nsec = 0 then
    if sec = 0 then ⟨false, 0, 0⟩
    else
      let s := roundToFloat64 sec 1
      ⟨decide (d < 0), s.1, s.2⟩
  else
    let frac := roundToFloat64 nsec 1000000000
    let unit := 2 ^ (-frac.2).toNat
    let sum := roundToFloat64 (sec * unit + frac.1) unit
    ⟨decide (d < 0), sum.1, sum.2⟩

/-- Go's conversion `int(x)` of a `float64`: the fraction is discarded. -/
def Float64.toInt (x : Float64) : Int :=
  let magnitude : Nat :=
    if x.exp ≥ 0 then x.mant * 2 ^ x.exp.toNat else x.mant / 2 ^ (-x.exp).toNat
  if x.neg then -(magnitude : Int) else (magnitude : Int)

/-- Go `strconv.Itoa` and `strconv.FormatInt(i, 10)`: the decimal numeral, with a minus
sign for a negative number. -/
def Itoa (i : Int) : String := toString i

/-- `buildPingArgs` of check.go.  `GOOS` is `runtime.GOOS`; `parseIP` stands for
`net.ParseIP` (`none` for `nil`). -/
def buildPingArgs (GOOS : String) (parseIP : String → Option String) (target : String)
    (timeout : Duration) : Except String (List String) :=
  if TrimSpace target = "" then .error "icmp target is empty"
  else
    let timeoutMs := Milliseconds timeout
    let timeoutMs := if timeoutMs ≤ 0 then 1000 else timeoutMs
    if GOOS = "windows" then .ok ["-n", "1", "-w", Itoa timeoutMs, target]
    else if GOOS = "darwin" then
      let timeoutSeconds := (Seconds timeout).toInt
      let timeoutSeconds := if timeoutSeconds < 1 then 1 else timeoutSeconds
      .ok ["-c", "1", "-W", Itoa timeoutSeconds, target]
    else
      let timeoutSeconds := (Seconds timeout).toInt
      let timeoutSeconds := if timeoutSeconds < 1 then 1 else timeoutSeconds
      if parseIP target = none then .ok ["-c", "1", "-W", Itoa timeoutSeconds, target]
      else .ok ["-c", "1", "-W", Itoa timeoutSeconds, target]

/-! ## The ICMP check -/

/-- How a started process ended (`os.ProcessState`): it exited on its own with an exit
code, or it was terminated by a signal. -/
inductive ProcessState where
  | exited (code : Nat)
  | signaled (signal : String)
deriving DecidableEq, Repr

/-- The error `command.Run()` returns, when it returns one: an `*exec.ExitError`, which
says that the command started and did not complete successfully and carries the state of
the process; or any other error (the binary was not found, the context was done before
the start, an I/O failure). -/
inductive RunError where
  | exitError (state : ProcessState)
  | other (err : String)
deriving DecidableEq, Repr

/-- `Checker.checkICMP` of check.go.  `run` stands for `exec.CommandContext(ctx, "ping",
args...).Run()` (`none` for `nil`). -/
def checkICMP (GOOS : String) (parseIP : String → Option String) (target : String)
    (timeout : Duration) (run : List String → Option RunError) : Bool × Option String :=
  match buildPingArgs GOOS parseIP target timeout with
  | .error err => (false, some err)
  | .ok args =>
    match run args with
    | some (.exitError _) => (false, none)
    | some (.other err) => (false, some err)
    | none => (true, none)

/-- What `Run` returns when the context is cancelled while the ping process is running:
`exec.CommandContext` kills the process, and the wait for a process that did not
complete successfully yields an `*exec.ExitError` (`signal: killed`). -/
def killedByCancellation : RunError := .exitError (.signaled "killed")

/-! ## The polling driver -/

def exitSuccess : Nat := 0
def exitFailure : Nat := 1
def exitUsage : Nat := 2
def exitCancelled : Nat := 130

/-- The run-once branch of `main`: the exit code after the one call of
`CheckWithRetries`, which returned `(up, checkErr)`. -/
def runOnce (up : Bool) (checkErr : Option String) : Nat :=
  if checkErr ≠ none then exitFailure
  else if up then exitSuccess
  else exitFailure

/-- The interval loop of `main` from round `round` on.  `check k` is what
`CheckWithRetries` returns in round `k`; `ctxDone k` says whether the `select` of that
round takes `<-ctx.Done()` (`true`) or `<-ticker.C` (`false`).  `none` means the loop is
still running when `fuel` rounds are over. -/
def runInterval (check : Nat → Bool × Option String) (ctxDone : Nat → Bool) :
    Nat → Nat → Option Nat
  | 0, _ => none
  | fuel + 1, round =>
    if (check round).2 = none ∧ (check round).1 = true then some exitSuccess
    else if ctxDone round then some exitCancelled
    else runInterval check ctxDone fuel (round + 1)

/-- The part of `main` that follows the construction of the checker: the exit code of
the process. -/
def runChecks (once : Bool) (check : Nat → Bool × Option String) (ctxDone : Nat → Bool)
    (fuel : Nat) : Option Nat :=
  if once then some (runOnce (check 0).1 (check 0).2)
  else runInterval check ctxDone fuel 0

/-- The answer of a call of `CheckWithRetries`, as `main` reads it. -/
def retryAnswer (r : Option RetryResult) : Bool × Option String :=
  match r with
  | some r => (r.isUp, r.err)
  | none => (false, none)

/-- A checker that is down at the first attempt, under a context cancelled during the
wait that follows it. -/
def cancelledInFirstWait : Env :=
  ⟨fun _ => (false, none), fun _ => some "context canceled"⟩

/-! ## Letter case of the mode hint -/

/-- The small letter of an ASCII capital; every other rune is left as it is. -/
def asciiLower (c : Char) : Char :=
  if 65 ≤ c.toNat ∧ c.toNat ≤ 90 then Char.ofNat (c.toNat + 32) else c

/-- Two texts that differ only in the case of their ASCII letters, such as `HTTP`,
`Http` and `http`. -/
def sameUpToCase (a b : String) : Prop := a.data.map asciiLower = b.data.map asciiLower

instance sameUpToCaseDecidable (a b : String) : Decidable (sameUpToCase a b) := by
  unfold sameUpToCase
  infer_instance

/-- Go `unicode.ToUpper` as far as the image can be an ASCII letter.  ASCII small letters
go to their capitals; U+017F (long s) and U+0131 (dotless i) are the two runes outside
ASCII whose upper case is an ASCII letter (`S` and `I`).  Every other rune outside ASCII
has an upper case outside ASCII and is kept as it is. -/
def toUpperRune (c : Char) : Char :=
  if 97 ≤ c.toNat ∧ c.toNat ≤ 122 then Char.ofNat (c.toNat - 32)
  else if c.toNat = 0x17F then 'S'
  else if c.toNat = 0x131 then 'I'
  else c

/-- Go `strings.ToUpper`. -/
def ToUpper (s : String) : String := ⟨s.data.map toUpperRune⟩

/-! ## Lemmas on the string functions -/

theorem rdropWhile_append_keep (p : Char → Bool) (l₁ l₂ : List Char)
    (h : l₁.rdropWhile p = l₁) :
    (l₁ ++ l₂).rdropWhile p = l₁ ++ l₂.rdropWhile p := by
  induction l₂ using List.reverseRecOn with
  | nil => simp [h]
  | append_singleton l a ih =>
    rw [← List.append_assoc, List.rdropWhile_concat, List.rdropWhile_concat]
    by_cases ha : p a = true
    · simp [ha, ih]
    · simp [ha]

/-- Trimming a text that starts with a fixed word `a :: w` (no white space at its ends)
only removes the white space at the end of what follows the word. -/
theorem trimSpaceChars_word_append (a : Char) (w t : List Char) (ha : isSpace a = false)
    (hr : (a :: w).rdropWhile isSpace = a :: w) :
    trimSpaceChars (a :: w ++ t) = a :: w ++ t.rdropWhile isSpace := by
  unfold trimSpaceChars
  have h1 : (a :: w ++ t).dropWhile isSpace = a :: w ++ t := by
    simp [List.dropWhile, ha]
  rw [h1, rdropWhile_append_keep _ _ _ hr]

theorem TrimSpace_http_append (t : String) :
    TrimSpace ("http://" ++ t) = "http://" ++ trimTrailingSpace t := by
  apply String.ext
  show trimSpaceChars (("http://" : String).data ++ t.data) = _
  exact trimSpaceChars_word_append 'h' ['t', 't', 'p', ':', '/', '/'] t.data (by decide)
    (by decide)

theorem TrimSpace_https_append (t : String) :
    TrimSpace ("https://" ++ t) = "https://" ++ trimTrailingSpace t := by
  apply String.ext
  show trimSpaceChars (("https://" : String).data ++ t.data) = _
  exact trimSpaceChars_word_append 'h' ['t', 't', 'p', 's', ':', '/', '/'] t.data (by decide)
    (by decide)

theorem HasPrefix_append (w t : String) : HasPrefix (w ++ t) w = true := by
  unfold HasPrefix
  rw [List.isPrefixOf_iff_prefix]
  exact ⟨t.data, rfl⟩

/-- No text starts with both `http://` and `https://`. -/
theorem not_both_prefixes (t : String) (h1 : HasPrefix t "http://" = true)
    (h2 : HasPrefix t "https://" = true) : False := by
  unfold HasPrefix at h1 h2
  rw [List.isPrefixOf_iff_prefix] at h1 h2
  have h := List.prefix_of_prefix_length_le h1 h2 (by decide)
  revert h
  decide

theorem append_ne_empty (w t : String) (hw : w ≠ "") : w ++ t ≠ "" := by
  intro h
  apply hw
  have hd := congrArg String.data h
  apply String.ext
  simp only [String.data_append] at hd
  exact (List.append_eq_nil.mp hd).1

/-- C1, as stated, fails: the hint ` http ` (with blanks around it) is none of the four
modes under a case-insensitive comparison, yet the resolver accepts it. -/
theorem C1_counterexample :
    (ResolveModeAndTarget schemeOnlyParse " http " "x").err = none ∧
    claimedFailure " http " "x" := by
  refine ⟨by decide, Or.inr (Or.inr (Or.inr ⟨?_, ?_, ?_, ?_⟩))⟩ <;> decide

/-- C1, amended: the resolver returns an error exactly when the trimmed target is empty,
or the hint (trimmed, then lower-cased) is http with a trimmed target starting with
`https://`, or https with one starting with `http://`, or is none of auto, icmp, http,
https; in every error case mode and target are empty; `http` with `https://x` and `https`
with `http://x` fail for every `x`. -/
theorem C1_resolve_error_iff (urlParse : String → Except String URL)
    (modeText target x : String) :
    ((ResolveModeAndTarget urlParse modeText target).err ≠ none ↔
      resolveFails modeText target) ∧
    ((ResolveModeAndTarget urlParse modeText target).err ≠ none →
      (ResolveModeAndTarget urlParse modeText target).mode = "" ∧
      (ResolveModeAndTarget urlParse modeText target).target = "") ∧
    (ResolveModeAndTarget urlParse "http" ("https://" ++ x)).err ≠ none ∧
    (ResolveModeAndTarget urlParse "https" ("http://" ++ x)).err ≠ none := by
  have key : ∀ m tg : String,
      ((ResolveModeAndTarget urlParse m tg).err ≠ none ↔ resolveFails m tg) ∧
      ((ResolveModeAndTarget urlParse m tg).err ≠ none →
        (ResolveModeAndTarget urlParse m tg).mode = "" ∧
        (ResolveModeAndTarget urlParse m tg).target = "") := by
    intro m tg
    unfold ResolveModeAndTarget resolveFails
    by_cases ht : TrimSpace tg = ""
    · simp [ht]
    · by_cases h1 : ToLower (TrimSpace m) = "icmp"
      · simp [ht, h1]
      · by_cases h2 : ToLower (TrimSpace m) = "http"
        · by_cases p1 : HasPrefix (TrimSpace tg) "http://" = true
          · have p2 : ¬ HasPrefix (TrimSpace tg) "https://" = true :=
              fun p2 => not_both_prefixes _ p1 p2
            simp [ht, h2, p1, p2]
          · by_cases p2 : HasPrefix (TrimSpace tg) "https://" = true
            · simp [ht, h2, p1, p2]
            · simp [ht, h2, p1, p2]
        · by_cases h3 : ToLower (TrimSpace m) = "https"
          · by_cases p2 : HasPrefix (TrimSpace tg) "https://" = true
            · have p1 : ¬ HasPrefix (TrimSpace tg) "http://" = true :=
                fun p1 => not_both_prefixes _ p1 p2
              simp [ht, h3, p1, p2]
            · by_cases p1 : HasPrefix (TrimSpace tg) "http://" = true
              · simp [ht, h3, p1, p2]
              · simp [ht, h3, p1, p2]
          · by_cases h4 : ToLower (TrimSpace m) = "auto"
            · by_cases p1 : HasPrefix (TrimSpace tg) "http://" = true
              · simp [ht, h4, p1]
              · by_cases p2 : HasPrefix (TrimSpace tg) "https://" = true
                · simp [ht, h4, p1, p2]
                · cases hq : urlParse (TrimSpace tg) with
                  | error e => simp [ht, h4, p1, p2, hq]
                  | ok parsed =>
                    by_cases q1 : parsed.Scheme = "http"
                    · simp [ht, h4, p1, p2, hq, q1]
                    · by_cases q2 : parsed.Scheme = "https"
                      · simp [ht, h4, p1, p2, hq, q2]
                      · simp [ht, h4, p1, p2, hq, q1, q2]
            · simp [ht, h1, h2, h3, h4]
  refine ⟨(key modeText target).1, (key modeText target).2, ?_, ?_⟩
  · rw [(key _ _).1]
    refine Or.inr (Or.inl ⟨by decide, ?_⟩)
    rw [TrimSpace_https_append]
    exact HasPrefix_append _ _
  · rw [(key _ _).1]
    refine Or.inr (Or.inr (Or.inl ⟨by decide, ?_⟩))
    rw [TrimSpace_http_append]
    exact HasPrefix_append _ _

theorem C1_resolve_error_iff_witness :
    (ResolveModeAndTarget schemeOnlyParse "ftp" "example.com").err ≠ none ∧
    (ResolveModeAndTarget schemeOnlyParse "ftp" "example.com").mode = "" ∧
    (ResolveModeAndTarget schemeOnlyParse "ftp" "example.com").target = "" :=
  have h := C1_resolve_error_iff schemeOnlyParse "ftp" "example.com" "x"
  have he := h.1.mpr (Or.inr (Or.inr (Or.inr ⟨by decide, by decide, by decide, by decide⟩)))
  ⟨he, h.2.1 he⟩

/-! ### Branches of the resolver -/

theorem resolve_icmp (urlParse : String → Except String URL) (modeText target : String)
    (ht : TrimSpace target ≠ "") (hm : ToLower (TrimSpace modeText) = "icmp") :
    ResolveModeAndTarget urlParse modeText target = ⟨ModeICMP, TrimSpace target, none⟩ := by
  simp [ResolveModeAndTarget, ht, hm]

theorem resolve_http (urlParse : String → Except String URL) (modeText target : String)
    (ht : TrimSpace target ≠ "") (hm : ToLower (TrimSpace modeText) = "http") :
    ResolveModeAndTarget urlParse modeText target =
      if HasPrefix (TrimSpace target) "http://" then ⟨ModeHTTP, TrimSpace target, none⟩
      else if HasPrefix (TrimSpace target) "https://" then
        ⟨"", "", some "--mode=http cannot use https target"⟩
      else ⟨ModeHTTP, "http://" ++ TrimSpace target, none⟩ := by
  simp [ResolveModeAndTarget, ht, hm]

theorem resolve_https (urlParse : String → Except String URL) (modeText target : String)
    (ht : TrimSpace target ≠ "") (hm : ToLower (TrimSpace modeText) = "https") :
    ResolveModeAndTarget urlParse modeText target =
      if HasPrefix (TrimSpace target) "https://" then ⟨ModeHTTPS, TrimSpace target, none⟩
      else if HasPrefix (TrimSpace target) "http://" then
        ⟨"", "", some "--mode=https cannot use http target"⟩
      else ⟨ModeHTTPS, "https://" ++ TrimSpace target, none⟩ := by
  simp [ResolveModeAndTarget, ht, hm]

theorem resolve_auto_http (urlParse : String → Except String URL) (modeText target : String)
    (ht : TrimSpace target ≠ "") (hm : ToLower (TrimSpace modeText) = "auto")
    (hp : HasPrefix (TrimSpace target) "http://" = true) :
    ResolveModeAndTarget urlParse modeText target = ⟨ModeHTTP, TrimSpace target, none⟩ := by
  simp [ResolveModeAndTarget, ht, hm, hp]

theorem resolve_auto_https (urlParse : String → Except String URL) (modeText target : String)
    (ht : TrimSpace target ≠ "") (hm : ToLower (TrimSpace modeText) = "auto")
    (hp : HasPrefix (TrimSpace target) "https://" = true) :
    ResolveModeAndTarget urlParse modeText target = ⟨ModeHTTPS, TrimSpace target, none⟩ := by
  have hp1 : HasPrefix (TrimSpace target) "http://" = false := by
    cases h : HasPrefix (TrimSpace target) "http://"
    · rfl
    · exact (not_both_prefixes _ h hp).elim
  simp [ResolveModeAndTarget, ht, hm, hp, hp1]

theorem resolve_auto_other (urlParse : String → Except String URL) (modeText target : String)
    (ht : TrimSpace target ≠ "") (hm : ToLower (TrimSpace modeText) = "auto")
    (hp1 : HasPrefix (TrimSpace target) "http://" = false)
    (hp2 : HasPrefix (TrimSpace target) "https://" = false) :
    ResolveModeAndTarget urlParse modeText target =
      match urlParse (TrimSpace target) with
      | .ok parsed =>
        if parsed.Scheme = "http" then ⟨ModeHTTP, TrimSpace target, none⟩
        else if parsed.Scheme = "https" then ⟨ModeHTTPS, TrimSpace target, none⟩
        else ⟨ModeICMP, TrimSpace target, none⟩
      | .error _ => ⟨ModeICMP, TrimSpace target, none⟩ := by
  cases hq : urlParse (TrimSpace target) with
  | error e => simp [ResolveModeAndTarget, ht, hm, hp1, hp2, hq]
  | ok parsed =>
    by_cases q1 : parsed.Scheme = "http"
    · simp [ResolveModeAndTarget, ht, hm, hp1, hp2, hq, q1]
    · by_cases q2 : parsed.Scheme = "https"
      · simp [ResolveModeAndTarget, ht, hm, hp1, hp2, hq, q2]
      · simp [ResolveModeAndTarget, ht, hm, hp1, hp2, hq, q1, q2]

/-- C2, as stated, fails: white space at the end of the target is trimmed away, so the
normalized target is not `http://` followed by the target as given. -/
theorem C2_counterexample :
    ResolveModeAndTarget schemeOnlyParse "auto" ("http://" ++ "x ") =
      ⟨ModeHTTP, "http://x", none⟩ ∧
    (ResolveModeAndTarget schemeOnlyParse "auto" ("http://" ++ "x ")).target ≠
      "http://" ++ "x " := by
  constructor <;> decide

/-- C2, amended: for every target, `auto` with `http://` + target succeeds with mode HTTP
and normalized target `http://` + the target without the white space at its end, and
likewise for `https://` with mode HTTPS; the normalized target is exactly the input
whenever the target does not end in white space. -/
theorem C2_auto_scheme_passthrough (urlParse : String → Except String URL) (target : String) :
    ResolveModeAndTarget urlParse "auto" ("http://" ++ target) =
      ⟨ModeHTTP, "http://" ++ trimTrailingSpace target, none⟩ ∧
    ResolveModeAndTarget urlParse "auto" ("https://" ++ target) =
      ⟨ModeHTTPS, "https://" ++ trimTrailingSpace target, none⟩ ∧
    (trimTrailingSpace target = target →
      ResolveModeAndTarget urlParse "auto" ("http://" ++ target) =
        ⟨ModeHTTP, "http://" ++ target, none⟩ ∧
      ResolveModeAndTarget urlParse "auto" ("https://" ++ target) =
        ⟨ModeHTTPS, "https://" ++ target, none⟩) := by
  have h1 : ResolveModeAndTarget urlParse "auto" ("http://" ++ target) =
      ⟨ModeHTTP, "http://" ++ trimTrailingSpace target, none⟩ := by
    rw [resolve_auto_http urlParse "auto" _ _ (by decide), TrimSpace_http_append]
    · rw [TrimSpace_http_append]; exact HasPrefix_append _ _
    · rw [TrimSpace_http_append]; exact append_ne_empty _ _ (by decide)
  have h2 : ResolveModeAndTarget urlParse "auto" ("https://" ++ target) =
      ⟨ModeHTTPS, "https://" ++ trimTrailingSpace target, none⟩ := by
    rw [resolve_auto_https urlParse "auto" _ _ (by decide), TrimSpace_https_append]
    · rw [TrimSpace_https_append]; exact HasPrefix_append _ _
    · rw [TrimSpace_https_append]; exact append_ne_empty _ _ (by decide)
  refine ⟨h1, h2, fun h => ?_⟩
  rw [h1, h2, h]
  exact ⟨rfl, rfl⟩

theorem C2_auto_scheme_passthrough_witness :
    trimTrailingSpace "example.com" = "example.com" ∧
    ResolveModeAndTarget schemeOnlyParse "auto" ("http://" ++ "example.com") =
      ⟨ModeHTTP, "http://" ++ "example.com", none⟩ ∧
    ResolveModeAndTarget schemeOnlyParse "auto" ("https://" ++ "example.com") =
      ⟨ModeHTTPS, "https://" ++ "example.com", none⟩ :=
  ⟨by decide,
    (C2_auto_scheme_passthrough schemeOnlyParse "example.com").2.2 (by decide)⟩

/-- C3: with a non-empty trimmed target `t`, the hint `http` gives (HTTP, t) when `t`
starts with `http://`, an error when it starts with `https://`, and (HTTP, `http://` + t)
otherwise; the hint `https` does the same with the schemes swapped.  Hence every
successful result under `http` (`https`) has a target starting with `http://`
(`https://`). -/
theorem C3_explicit_http_https (urlParse : String → Except String URL) (target : String)
    (ht : TrimSpace target ≠ "") :
    (HasPrefix (TrimSpace target) "http://" = true →
      ResolveModeAndTarget urlParse "http" target = ⟨ModeHTTP, TrimSpace target, none⟩) ∧
    (HasPrefix (TrimSpace target) "https://" = true →
      (ResolveModeAndTarget urlParse "http" target).err ≠ none) ∧
    (HasPrefix (TrimSpace target) "http://" = false →
      HasPrefix (TrimSpace target) "https://" = false →
      ResolveModeAndTarget urlParse "http" target =
        ⟨ModeHTTP, "http://" ++ TrimSpace target, none⟩) ∧
    (HasPrefix (TrimSpace target) "https://" = true →
      ResolveModeAndTarget urlParse "https" target = ⟨ModeHTTPS, TrimSpace target, none⟩) ∧
    (HasPrefix (TrimSpace target) "http://" = true →
      (ResolveModeAndTarget urlParse "https" target).err ≠ none) ∧
    (HasPrefix (TrimSpace target) "http://" = false →
      HasPrefix (TrimSpace target) "https://" = false →
      ResolveModeAndTarget urlParse "https" target =
        ⟨ModeHTTPS, "https://" ++ TrimSpace target, none⟩) ∧
    ((ResolveModeAndTarget urlParse "http" target).err = none →
      (ResolveModeAndTarget urlParse "http" target).mode = ModeHTTP ∧
      HasPrefix (ResolveModeAndTarget urlParse "http" target).target "http://" = true) ∧
    ((ResolveModeAndTarget urlParse "https" target).err = none →
      (ResolveModeAndTarget urlParse "https" target).mode = ModeHTTPS ∧
      HasPrefix (ResolveModeAndTarget urlParse "https" target).target "https://" = true) := by
  rw [resolve_http urlParse "http" target ht (by decide),
    resolve_https urlParse "https" target ht (by decide)]
  cases p1 : HasPrefix (TrimSpace target) "http://" <;>
    cases p2 : HasPrefix (TrimSpace target) "https://"
  · simp [HasPrefix_append]
  · simp [p2]
  · simp [p1]
  · exact (not_both_prefixes _ p1 p2).elim

theorem C3_explicit_http_https_witness :
    TrimSpace " example.com " ≠ "" ∧
    ResolveModeAndTarget schemeOnlyParse "http" " example.com " =
      ⟨ModeHTTP, "http://example.com", none⟩ ∧
    ResolveModeAndTarget schemeOnlyParse "https" " example.com " =
      ⟨ModeHTTPS, "https://example.com", none⟩ :=
  ⟨by decide,
    (C3_explicit_http_https schemeOnlyParse " example.com " (by decide)).2.2.1
      (by decide) (by decide),
    (C3_explicit_http_https schemeOnlyParse " example.com " (by decide)).2.2.2.2.2.1
      (by decide) (by decide)⟩

/-- C4: when the trimmed target is non-empty, starts with neither `http://` nor
`https://`, and `url.Parse` of it fails or yields a scheme other than `http` and `https`,
`auto` succeeds with (ICMP, trimmed target). -/
theorem C4_auto_defaults_to_icmp (urlParse : String → Except String URL) (target : String)
    (ht : TrimSpace target ≠ "")
    (hp1 : HasPrefix (TrimSpace target) "http://" = false)
    (hp2 : HasPrefix (TrimSpace target) "https://" = false)
    (hparse : (∃ e, urlParse (TrimSpace target) = .error e) ∨
      (∃ parsed, urlParse (TrimSpace target) = .ok parsed ∧
        parsed.Scheme ≠ "http" ∧ parsed.Scheme ≠ "https")) :
    ResolveModeAndTarget urlParse "auto" target = ⟨ModeICMP, TrimSpace target, none⟩ := by
  rw [resolve_auto_other urlParse "auto" target ht (by decide) hp1 hp2]
  rcases hparse with ⟨e, he⟩ | ⟨parsed, hq, q1, q2⟩
  · rw [he]
  · rw [hq]
    simp [q1, q2]

theorem C4_auto_defaults_to_icmp_witness :
    ResolveModeAndTarget schemeOnlyParse "auto" " example.com " =
      ⟨ModeICMP, "example.com", none⟩ :=
  C4_auto_defaults_to_icmp schemeOnlyParse " example.com " (by decide) (by decide)
    (by decide) (Or.inr ⟨⟨""⟩, rfl, by decide, by decide⟩)

/-- C5: with the hint `icmp` and a non-empty trimmed target, the resolver returns
(ICMP, trimmed target) with no error, whatever `url.Parse` would say of the target and
whether or not the target carries a scheme. -/
theorem C5_icmp_passthrough (urlParse : String → Except String URL) (target : String)
    (ht : TrimSpace target ≠ "") :
    ResolveModeAndTarget urlParse "icmp" target = ⟨ModeICMP, TrimSpace target, none⟩ ∧
    ResolveModeAndTarget urlParse "icmp" ("http://" ++ target) =
      ⟨ModeICMP, TrimSpace ("http://" ++ target), none⟩ := by
  refine ⟨resolve_icmp urlParse "icmp" target ht (by decide),
    resolve_icmp urlParse "icmp" _ ?_ (by decide)⟩
  rw [TrimSpace_http_append]
  exact append_ne_empty _ _ (by decide)

theorem C5_icmp_passthrough_witness :
    ResolveModeAndTarget schemeOnlyParse "icmp" " 10.0.0.1 " = ⟨ModeICMP, "10.0.0.1", none⟩ ∧
    ResolveModeAndTarget schemeOnlyParse "icmp" ("http://" ++ " 10.0.0.1 ") =
      ⟨ModeICMP, "http:// 10.0.0.1", none⟩ :=
  C5_icmp_passthrough schemeOnlyParse " 10.0.0.1 " (by decide)

/-! ### Splitting and trimming -/

theorem isSpace_ne_comma (c : Char) (h : isSpace c = true) : c ≠ ',' := by
  rintro rfl
  revert h
  decide

theorem splitChars_ne_nil (sep : Char) (l : List Char) : splitChars sep l ≠ [] := by
  cases l with
  | nil => simp [splitChars]
  | cons c cs =>
    unfold splitChars
    split
    · simp
    · split <;> simp

theorem splitChars_cons_ne (sep c : Char) (cs : List Char) (h : c ≠ sep) :
    ∃ field fields, splitChars sep cs = field :: fields ∧
      splitChars sep (c :: cs) = (c :: field) :: fields := by
  cases hs : splitChars sep cs with
  | nil => exact absurd hs (splitChars_ne_nil sep cs)
  | cons field fields =>
    refine ⟨field, fields, rfl, ?_⟩
    rw [splitChars, if_neg h, hs]

theorem trimSpaceChars_cons_space (c : Char) (l : List Char) (h : isSpace c = true) :
    trimSpaceChars (c :: l) = trimSpaceChars l := by
  unfold trimSpaceChars
  rw [List.dropWhile_cons_of_pos h]

theorem trimSpaceChars_concat_space (c : Char) (l : List Char) (h : isSpace c = true) :
    trimSpaceChars (l ++ [c]) = trimSpaceChars l := by
  unfold trimSpaceChars
  induction l with
  | nil => simp [List.dropWhile, h]
  | cons a l ih =>
    by_cases ha : isSpace a = true
    · rw [List.cons_append, List.dropWhile_cons_of_pos ha, List.dropWhile_cons_of_pos ha]
      exact ih
    · rw [List.cons_append, List.dropWhile_cons_of_neg ha, List.dropWhile_cons_of_neg ha,
        ← List.cons_append, List.rdropWhile_concat_pos _ _ _ h]

theorem textsOf_cons_space (c : Char) (l : List Char) (h : isSpace c = true) :
    textsOf (c :: l) = textsOf l := by
  obtain ⟨field, fields, h1, h2⟩ := splitChars_cons_ne ',' c l (isSpace_ne_comma c h)
  unfold textsOf
  rw [h1, h2]
  simp [trimSpaceChars_cons_space c field h]

theorem splitChars_concat_ne (sep c : Char) (l : List Char) (h : c ≠ sep) :
    ∃ init last, splitChars sep l = init ++ [last] ∧
      splitChars sep (l ++ [c]) = init ++ [last ++ [c]] := by
  induction l with
  | nil => exact ⟨[], [], by simp [splitChars], by simp [splitChars, h]⟩
  | cons a l ih =>
    obtain ⟨init, last, h1, h2⟩ := ih
    by_cases ha : a = sep
    · refine ⟨[] :: init, last, ?_, ?_⟩
      · rw [splitChars, if_pos ha, h1]; rfl
      · rw [List.cons_append, splitChars, if_pos ha, h2]; rfl
    · cases init with
      | nil =>
        refine ⟨[], a :: last, ?_, ?_⟩
        · rw [splitChars, if_neg ha, h1]; rfl
        · rw [List.cons_append, splitChars, if_neg ha, h2]; rfl
      | cons i is =>
        refine ⟨(a :: i) :: is, last, ?_, ?_⟩
        · rw [splitChars, if_neg ha, h1]; rfl
        · rw [List.cons_append, splitChars, if_neg ha, h2]; rfl

theorem textsOf_concat_space (c : Char) (l : List Char) (h : isSpace c = true) :
    textsOf (l ++ [c]) = textsOf l := by
  obtain ⟨init, last, h1, h2⟩ := splitChars_concat_ne ',' c l (isSpace_ne_comma c h)
  unfold textsOf
  rw [h1, h2]
  simp [trimSpaceChars_concat_space c last h]

theorem textsOf_dropWhile (l : List Char) : textsOf (l.dropWhile isSpace) = textsOf l := by
  induction l with
  | nil => rfl
  | cons a l ih =>
    by_cases ha : isSpace a = true
    · rw [List.dropWhile_cons_of_pos ha, ih, textsOf_cons_space a l ha]
    · rw [List.dropWhile_cons_of_neg ha]

theorem textsOf_rdropWhile (l : List Char) : textsOf (l.rdropWhile isSpace) = textsOf l := by
  induction l using List.reverseRecOn with
  | nil => rfl
  | append_singleton l a ih =>
    by_cases ha : isSpace a = true
    · rw [List.rdropWhile_concat_pos _ _ _ ha, ih, textsOf_concat_space a l ha]
    · rw [List.rdropWhile_concat_neg _ _ _ ha]

theorem textsOf_trimSpaceChars (l : List Char) : textsOf (trimSpaceChars l) = textsOf l := by
  unfold trimSpaceChars
  rw [textsOf_rdropWhile, textsOf_dropWhile]

theorem parseStatusValues_eq_parseTexts (values : List String) (statuses : Finset Int) :
    parseStatusValues values statuses = parseTexts (statusTexts values) statuses := by
  induction values generalizing statuses with
  | nil => rfl
  | cons value values ih =>
    unfold parseStatusValues statusTexts
    by_cases hv : TrimSpace value = ""
    · simp only [hv, if_true, List.map_cons]
      rw [ih]
      simp [statusTexts]
    · simp only [hv, if_false, List.map_cons]
      rw [List.filter_cons_of_pos (by simpa using hv), parseTexts]
      cases Atoi (TrimSpace value) with
      | none => rfl
      | some statusCode =>
        simp only
        split
        · rfl
        · rw [ih]; rfl

theorem statusTexts_map_mk (fields : List (List Char)) :
    statusTexts (fields.map String.mk) =
      ((fields.map trimSpaceChars).filter (fun t => t ≠ [])).map String.mk := by
  induction fields with
  | nil => rfl
  | cons field fields ih =>
    unfold statusTexts at ih ⊢
    simp only [List.map_cons]
    by_cases hf : trimSpaceChars field = []
    · have hs : TrimSpace ⟨field⟩ = "" := by
        apply String.ext; exact hf
      rw [List.filter_cons_of_neg (by simp [hs]), List.filter_cons_of_neg (by simp [hf])]
      exact ih
    · have hs : TrimSpace ⟨field⟩ ≠ "" := by
        intro h; exact hf (congrArg String.data h)
      rw [List.filter_cons_of_pos (by simpa using hs),
        List.filter_cons_of_pos (by simpa using hf), List.map_cons, ih]
      rfl

theorem statusTexts_Split (s : String) :
    statusTexts (Split s ',') = (textsOf s.data).map String.mk :=
  statusTexts_map_mk _

theorem statusTexts_Split_TrimSpace (s : String) :
    statusTexts (Split (TrimSpace s) ',') = statusTexts (Split s ',') := by
  rw [statusTexts_Split, statusTexts_Split]
  show List.map String.mk (textsOf (trimSpaceChars s.data)) = _
  rw [textsOf_trimSpaceChars]

/-- The parser is the loop run over the trimmed non-empty fields of the input as given:
trimming the whole input first changes neither the fields nor the early return. -/
theorem ParseExpectedStatuses_eq (input : String) :
    ParseExpectedStatuses input = parseTexts (statusTexts (Split input ',')) ∅ := by
  unfold ParseExpectedStatuses
  by_cases ht : TrimSpace input = ""
  · have h := statusTexts_Split_TrimSpace input
    rw [ht] at h
    simp only [ht, if_true]
    rw [← h]
    rfl
  · simp only [ht, if_false]
    rw [parseStatusValues_eq_parseTexts, statusTexts_Split_TrimSpace]

/-! ### Decimal numerals -/

theorem digitChar_spec : ∀ d, d < 10 →
    isDigit (Nat.digitChar d) ∧ (Nat.digitChar d).toNat - 48 = d := by
  decide

theorem isDigit_not_space (c : Char) (h : isDigit c) : isSpace c = false := by
  unfold isSpace
  simp only [Bool.or_eq_false_iff, beq_eq_false_iff_ne, Bool.and_eq_false_iff,
    decide_eq_false_iff_not]
  omega

theorem isDigit_ne (c x : Char) (h : isDigit c) (hx : ¬ isDigit x) : c ≠ x := by
  rintro rfl
  exact hx h

theorem parseDigits_toDigitsCore (fuel n : Nat) (ds : List Char) (h : n < fuel) :
    parseDigits (Nat.toDigitsCore 10 fuel n ds) 0 = parseDigits ds n := by
  induction fuel generalizing n ds with
  | zero => omega
  | succ fuel ih =>
    have hd := digitChar_spec (n % 10) (Nat.mod_lt _ (by decide))
    have hstep : parseDigits (Nat.digitChar (n % 10) :: ds) (n / 10) = parseDigits ds n := by
      rw [parseDigits, if_pos hd.1, hd.2]
      congr 1
      omega
    unfold Nat.toDigitsCore
    simp only
    by_cases h0 : n / 10 = 0
    · rw [if_pos h0]
      rw [h0] at hstep
      exact hstep
    · rw [if_neg h0, ih (n / 10) _ (by omega)]
      exact hstep

theorem toDigitsCore_digits (fuel n : Nat) (ds : List Char) (hds : ∀ c ∈ ds, isDigit c) :
    ∀ c ∈ Nat.toDigitsCore 10 fuel n ds, isDigit c := by
  induction fuel generalizing n ds with
  | zero => exact hds
  | succ fuel ih =>
    have hd := (digitChar_spec (n % 10) (Nat.mod_lt _ (by decide))).1
    have hcons : ∀ c ∈ Nat.digitChar (n % 10) :: ds, isDigit c := by
      intro c hc
      rcases List.mem_cons.mp hc with rfl | hc
      · exact hd
      · exact hds c hc
    unfold Nat.toDigitsCore
    simp only
    by_cases h0 : n / 10 = 0
    · rw [if_pos h0]; exact hcons
    · rw [if_neg h0]; exact ih _ _ hcons

theorem decimal_digits (n : Nat) : ∀ c ∈ decimal n, isDigit c :=
  toDigitsCore_digits _ _ _ (by simp)

theorem parseDigits_decimal (n : Nat) : parseDigits (decimal n) 0 = some n := by
  show parseDigits (Nat.toDigitsCore 10 (n + 1) n []) 0 = some n
  rw [parseDigits_toDigitsCore _ _ _ (by omega)]
  rfl

theorem decimal_ne_nil (n : Nat) (hn : 0 < n) : decimal n ≠ [] := by
  intro h
  have := parseDigits_decimal n
  rw [h] at this
  simp [parseDigits] at this
  omega

theorem Atoi_decimal (n : Nat) (hn : 0 < n) (hmax : n < 2 ^ 63) :
    Atoi ⟨decimal n⟩ = some (n : Int) := by
  cases hdec : decimal n with
  | nil => exact absurd hdec (decimal_ne_nil n hn)
  | cons c cs =>
    have hc : isDigit c := decimal_digits n c (by rw [hdec]; simp)
    have h1 : c ≠ '-' := isDigit_ne c _ hc (by decide)
    have h2 : c ≠ '+' := isDigit_ne c _ hc (by decide)
    have hp := parseDigits_decimal n
    rw [hdec] at hp
    unfold Atoi
    simp only [h1, h2, or_self, if_false, hp]
    have hr : -(2 : Int) ^ (intSize - 1) ≤ (n : Int) ∧ (n : Int) ≤ (2 : Int) ^ (intSize - 1) - 1 := by
      have : (2 : Int) ^ (intSize - 1) = 9223372036854775808 := by decide
      rw [this]
      have : (2 : Nat) ^ 63 = 9223372036854775808 := by decide
      omega
    simp [hr]

theorem splitChars_no_sep (sep : Char) (t : List Char) (h : ∀ c ∈ t, c ≠ sep) :
    splitChars sep t = [t] := by
  induction t with
  | nil => rfl
  | cons a t ih =>
    rw [splitChars, if_neg (h a (by simp)), ih (fun c hc => h c (by simp [hc]))]

theorem splitChars_append_sep (sep : Char) (t rest : List Char) (h : ∀ c ∈ t, c ≠ sep) :
    splitChars sep (t ++ sep :: rest) = t :: splitChars sep rest := by
  induction t with
  | nil => simp [splitChars]
  | cons a t ih =>
    rw [List.cons_append, splitChars, if_neg (h a (by simp)),
      ih (fun c hc => h c (by simp [hc]))]

theorem splitChars_joinComma (toks : List (List Char)) (hne : toks ≠ [])
    (h : ∀ t ∈ toks, ∀ c ∈ t, c ≠ ',') : splitChars ',' (joinComma toks) = toks := by
  induction toks with
  | nil => exact absurd rfl hne
  | cons t rest ih =>
    cases rest with
    | nil => exact splitChars_no_sep ',' t (h t (by simp))
    | cons u rest =>
      rw [joinComma, splitChars_append_sep ',' _ _ (h t (by simp)),
        ih (by simp) (fun t ht => h t (by simp [ht]))]

theorem StatusToken.chars_no_comma (t : StatusToken) (ht : t.wellFormed) :
    ∀ c ∈ t.chars, c ≠ ',' := by
  intro c hc
  unfold StatusToken.chars at hc
  rcases List.mem_append.mp hc with hc | hc
  · exact isSpace_ne_comma c (ht.1 c hc)
  · rcases List.mem_append.mp hc with hc | hc
    · exact isDigit_ne c _ (decimal_digits _ c hc) (by decide)
    · exact isSpace_ne_comma c (ht.2.1 c hc)

theorem trimSpaceChars_padded (pre word post : List Char)
    (hpre : ∀ c ∈ pre, isSpace c = true) (hpost : ∀ c ∈ post, isSpace c = true)
    (hne : word ≠ []) (hword : ∀ c ∈ word, isSpace c = false) :
    trimSpaceChars (pre ++ (word ++ post)) = word := by
  unfold trimSpaceChars
  rw [List.dropWhile_append_of_pos hpre]
  cases word with
  | nil => exact absurd rfl hne
  | cons a w =>
    have ha : isSpace a = false := hword a (by simp)
    have h1 : (a :: w ++ post).dropWhile isSpace = a :: w ++ post := by
      simp [List.dropWhile, ha]
    have hr : (a :: w).rdropWhile isSpace = a :: w := by
      rw [List.rdropWhile_eq_self_iff]
      intro hl
      simp [hword _ (List.getLast_mem hl)]
    rw [h1, rdropWhile_append_keep _ _ _ hr, List.rdropWhile_eq_nil_iff.mpr hpost,
      List.append_nil]

theorem StatusToken.trim_chars (t : StatusToken) (ht : t.wellFormed) :
    trimSpaceChars t.chars = decimal t.code :=
  trimSpaceChars_padded _ _ _ ht.1 ht.2.1 (decimal_ne_nil _ (by have := ht.2.2.1; omega))
    (fun c hc => isDigit_not_space c (decimal_digits _ c hc))

theorem textsOf_render (ts : List StatusToken) (h : ∀ t ∈ ts, t.wellFormed) :
    textsOf (joinComma (ts.map StatusToken.chars)) = ts.map (fun t => decimal t.code) := by
  cases hts : ts with
  | nil => simp [joinComma, textsOf, splitChars, trimSpaceChars]
  | cons t rest =>
    rw [← hts]
    unfold textsOf
    rw [splitChars_joinComma _ (by simp [hts])]
    · rw [List.map_map, List.filter_eq_self.mpr]
      · apply List.map_congr_left
        intro t ht
        exact StatusToken.trim_chars t (h t ht)
      · intro x hx
        obtain ⟨t, ht, rfl⟩ := List.mem_map.mp hx
        simp only [Function.comp, ne_eq, decide_not, Bool.not_eq_true', decide_eq_false_iff_not]
        rw [StatusToken.trim_chars t (h t ht)]
        exact decimal_ne_nil _ (by have := (h t ht).2.2.1; omega)
    · intro x hx
      obtain ⟨t, ht, rfl⟩ := List.mem_map.mp hx
      exact StatusToken.chars_no_comma t (h t ht)

theorem parseTexts_decimal (ts : List StatusToken) (h : ∀ t ∈ ts, t.wellFormed)
    (statuses : Finset Int) :
    parseTexts (ts.map (fun t => String.mk (decimal t.code))) statuses =
      .ok (statuses ∪ (ts.map (fun t => (t.code : Int))).toFinset) := by
  induction ts generalizing statuses with
  | nil => simp [parseTexts]
  | cons t rest ih =>
    have ht := h t (by simp)
    have hA := Atoi_decimal t.code (by have := ht.2.2.1; omega)
      (by have := ht.2.2.2; have : (2 : Nat) ^ 63 = 9223372036854775808 := by decide
          omega)
    have hr : ¬ ((t.code : Int) < 100 ∨ (t.code : Int) > 599) := by
      have := ht.2.2.1; have := ht.2.2.2; omega
    rw [List.map_cons, parseTexts, hA]
    simp only [hr, if_false]
    rw [ih (fun t ht => h t (by simp [ht]))]
    congr 1
    ext x
    simp only [Finset.mem_union, Finset.mem_insert, List.map_cons, List.toFinset_cons]
    tauto

theorem ParseExpectedStatuses_render (ts : List StatusToken) (h : ∀ t ∈ ts, t.wellFormed) :
    ParseExpectedStatuses (renderStatuses ts) =
      .ok ((ts.map (fun t => (t.code : Int))).toFinset) := by
  rw [ParseExpectedStatuses_eq, statusTexts_Split]
  show parseTexts (List.map String.mk (textsOf (joinComma (ts.map StatusToken.chars)))) ∅ = _
  rw [textsOf_render ts h, List.map_map]
  have := parseTexts_decimal ts h ∅
  simpa [Function.comp] using this

/-- C6: a list of codes in [100, 599], each written in decimal with any white space
around it, joined with commas, parses to exactly the set of those codes; hence two such
lists with the same set of codes (in another order, with repetitions) parse to the same
set; an empty or white-space-only input parses to the empty set; `200, 204,301` gives the
3-element set of 200, 204, 301 and `200,200` gives the set of 200 alone. -/
theorem C6_parse_status_list (ts us : List StatusToken)
    (hts : ∀ t ∈ ts, t.wellFormed) (hus : ∀ t ∈ us, t.wellFormed) (input : String) :
    ParseExpectedStatuses (renderStatuses ts) =
      .ok ((ts.map (fun t => (t.code : Int))).toFinset) ∧
    ((ts.map (fun t => (t.code : Int))).toFinset = (us.map (fun t => (t.code : Int))).toFinset →
      ParseExpectedStatuses (renderStatuses ts) = ParseExpectedStatuses (renderStatuses us)) ∧
    (TrimSpace input = "" → ParseExpectedStatuses input = .ok ∅) ∧
    ParseExpectedStatuses "200, 204,301" = .ok {200, 204, 301} ∧
    ({200, 204, 301} : Finset Int).card = 3 ∧
    ParseExpectedStatuses "200,200" = .ok {200} := by
  refine ⟨ParseExpectedStatuses_render ts hts, fun h => ?_, fun h => ?_, by decide,
    by decide, by decide⟩
  · rw [ParseExpectedStatuses_render ts hts, ParseExpectedStatuses_render us hus, h]
  · simp [ParseExpectedStatuses, h]

theorem C6_parse_status_list_witness :
    renderStatuses sampleTokens = "200 ,\t301, 200" ∧
    renderStatuses sampleTokensReordered = "301,200" ∧
    ParseExpectedStatuses (renderStatuses sampleTokens) = .ok {200, 301} ∧
    ParseExpectedStatuses (renderStatuses sampleTokens) =
      ParseExpectedStatuses (renderStatuses sampleTokensReordered) ∧
    ParseExpectedStatuses " \n" = .ok ∅ :=
  have h1 : ∀ t ∈ sampleTokens, t.wellFormed := by
    intro t ht
    simp only [sampleTokens, List.mem_cons, List.mem_singleton, List.not_mem_nil,
      or_false] at ht
    rcases ht with rfl | rfl | rfl <;>
      exact ⟨by decide, by decide, by decide, by decide⟩
  have h2 : ∀ t ∈ sampleTokensReordered, t.wellFormed := by
    intro t ht
    simp only [sampleTokensReordered, List.mem_cons, List.mem_singleton, List.not_mem_nil,
      or_false] at ht
    rcases ht with rfl | rfl <;>
      exact ⟨by decide, by decide, by decide, by decide⟩
  have h := C6_parse_status_list sampleTokens sampleTokensReordered h1 h2 " \n"
  ⟨by decide, by decide, h.1.trans (congrArg Except.ok (by decide)), h.2.1 (by decide),
    h.2.2.1 (by decide)⟩

theorem parseTexts_error_iff (texts : List String) (statuses : Finset Int) :
    (∃ e, parseTexts texts statuses = .error e) ↔
      ∃ t ∈ texts, validStatusText t = false := by
  induction texts generalizing statuses with
  | nil => simp [parseTexts]
  | cons t rest ih =>
    unfold parseTexts
    cases hA : Atoi t with
    | none => simp [validStatusText, hA]
    | some c =>
      by_cases hr : c < 100 ∨ c > 599
      · have hv : validStatusText t = false := by
          simp only [validStatusText, hA, decide_eq_false_iff_not]; omega
        simp [hr, hv]
      · have hv : validStatusText t = true := by
          simp only [validStatusText, hA, decide_eq_true_eq]; omega
        simp only [hr, if_false, ih, List.mem_cons, exists_eq_or_imp, hv]
        simp

theorem mem_statusTexts (values : List String) (t : String) :
    t ∈ statusTexts values ↔ ∃ value ∈ values, TrimSpace value = t ∧ t ≠ "" := by
  unfold statusTexts
  simp only [List.mem_filter, List.mem_map, ne_eq, decide_not, Bool.not_eq_true',
    decide_eq_false_iff_not]
  constructor
  · rintro ⟨⟨v, hv, rfl⟩, hne⟩
    exact ⟨v, hv, rfl, hne⟩
  · rintro ⟨v, hv, rfl, hne⟩
    exact ⟨⟨v, hv, rfl⟩, hne⟩

/-- C7, as stated, fails: in `200,` the token after the comma is empty, so it is not an
integer, yet the parser skips it and succeeds. -/
theorem C7_counterexample :
    TrimSpace "200," ≠ "" ∧ someTokenRejected "200," ∧
    ParseExpectedStatuses "200," = .ok {200} :=
  ⟨by decide, ⟨"", by decide, by decide⟩, by decide⟩

/-- C7, amended: for an input that is not white space only, the parser splits the
trimmed input on commas, trims each token, and fails exactly when some token that is not
empty after trimming is not an integer or is an integer outside [100, 599]; tokens that
are empty after trimming are skipped; `abc` and `700` fail. -/
theorem C7_parse_fails_iff (input : String) (hne : TrimSpace input ≠ "") :
    ((∃ e, ParseExpectedStatuses input = .error e) ↔
      ∃ value ∈ Split (TrimSpace input) ',',
        TrimSpace value ≠ "" ∧ validStatusText (TrimSpace value) = false) ∧
    ParseExpectedStatuses "abc" = .error (.notValid "abc") ∧
    ParseExpectedStatuses "700" = .error (.outsideRange 700) := by
  refine ⟨?_, by decide, by decide⟩
  unfold ParseExpectedStatuses
  simp only [hne, if_false]
  rw [parseStatusValues_eq_parseTexts, parseTexts_error_iff]
  constructor
  · rintro ⟨t, ht, hv⟩
    obtain ⟨v, hv1, rfl, hv2⟩ := (mem_statusTexts _ _).mp ht
    exact ⟨v, hv1, hv2, hv⟩
  · rintro ⟨v, hv1, hv2, hv⟩
    exact ⟨TrimSpace v, (mem_statusTexts _ _).mpr ⟨v, hv1, rfl, hv2⟩, hv⟩

theorem C7_parse_fails_iff_witness :
    TrimSpace " 200, 99 ,301" ≠ "" ∧
    (∃ e, ParseExpectedStatuses " 200, 99 ,301" = .error e) :=
  ⟨by decide,
    (C7_parse_fails_iff " 200, 99 ,301" (by decide)).1.mpr
      ⟨" 99 ", by decide, by decide, by decide⟩⟩

theorem parseTexts_range (texts : List String) (statuses result : Finset Int)
    (h : parseTexts texts statuses = .ok result)
    (hs : ∀ c ∈ statuses, 100 ≤ c ∧ c ≤ 599) : ∀ c ∈ result, 100 ≤ c ∧ c ≤ 599 := by
  induction texts generalizing statuses with
  | nil =>
    simp only [parseTexts, Except.ok.injEq] at h
    rw [← h]; exact hs
  | cons t rest ih =>
    unfold parseTexts at h
    cases hA : Atoi t with
    | none => rw [hA] at h; simp at h
    | some c =>
      rw [hA] at h
      by_cases hr : c < 100 ∨ c > 599
      · simp [hr] at h
      · simp only [hr, if_false] at h
        refine ih _ h ?_
        intro x hx
        rcases Finset.mem_insert.mp hx with rfl | hx
        · omega
        · exact hs x hx

/-- C8: whenever `ParseExpectedStatuses` succeeds, every member of the set it returns is
an integer in [100, 599]. -/
theorem C8_statuses_in_range (input : String) (statuses : Finset Int)
    (h : ParseExpectedStatuses input = .ok statuses) :
    ∀ c ∈ statuses, 100 ≤ c ∧ c ≤ 599 := by
  rw [ParseExpectedStatuses_eq] at h
  exact parseTexts_range _ ∅ statuses h (by simp)

theorem C8_statuses_in_range_witness :
    ParseExpectedStatuses "200, 204,301" = .ok {200, 204, 301} ∧
    ∀ c ∈ ({200, 204, 301} : Finset Int), 100 ≤ c ∧ c ≤ 599 :=
  ⟨by decide, C8_statuses_in_range "200, 204,301" {200, 204, 301} (by decide)⟩

/-! ### The loop of the retrying check -/

theorem wrapInt_of_fits (x : Int) (h1 : -9223372036854775808 ≤ x)
    (h2 : x ≤ 9223372036854775807) : wrapInt x = x := by
  unfold wrapInt
  have e1 : (2 : Int) ^ (intSize - 1) = 9223372036854775808 := by decide
  have e2 : (2 : Int) ^ intSize = 18446744073709551616 := by decide
  rw [e1, e2]
  omega

theorem maxInt_eq : maxInt = 9223372036854775807 := by decide

/-- The loop when no attempt from `a` on succeeds and no wait is cut short: the `n`
attempts left are all made, with a wait after each but the last. -/
theorem retryLoop_exhausted (env : Env) (attempts : Int) (hA : attempts ≤ maxInt)
    (hctx : ∀ k, env.ctxDone k = none) (n : Nat) :
    ∀ (a fuel : Nat) (lastErr : Option String) (events : List Event),
      (a : Int) + n = attempts → n < fuel →
      (∀ k, a ≤ k → k < a + n → ¬ succeeds env k) →
      retryLoop env attempts fuel a lastErr events =
        some ⟨false, lastErrAfter env a n lastErr, events ++ attemptsWithWaits n⟩ := by
  rw [maxInt_eq] at hA
  induction n with
  | zero =>
    intro a fuel lastErr events ha hfuel _
    cases fuel with
    | zero => omega
    | succ fuel =>
      have hlt : ¬ ((a : Int) < attempts) := by omega
      unfold retryLoop
      rw [if_neg hlt]
      cases lastErr <;> simp [lastErrAfter, attemptsWithWaits]
  | succ n ih =>
    intro a fuel lastErr events ha hfuel hfail
    cases fuel with
    | zero => omega
    | succ fuel =>
      have hlt : (a : Int) < attempts := by omega
      have hns : ¬ ((env.checkOnce a).2 = none ∧ (env.checkOnce a).1 = true) :=
        hfail a (le_refl a) (by omega)
      have hw1 : wrapInt (attempts - 1) = attempts - 1 :=
        wrapInt_of_fits _ (by omega) (by omega)
      have hw2 : wrapInt ((a : Int) + 1) = ((a + 1 : Nat) : Int) := by
        rw [wrapInt_of_fits _ (by omega) (by omega)]; push_cast; rfl
      have hrec := ih (a + 1) fuel
        (if (env.checkOnce a).2 ≠ none then (env.checkOnce a).2 else lastErr)
      unfold retryLoop
      simp only [hlt, if_true, Int.toNat_ofNat, hns, if_false, hw1, hw2, hctx]
      cases n with
      | zero =>
        have hlast : ¬ ((a : Int) < attempts - 1) := by omega
        rw [if_neg hlast, hrec _ (by push_cast; omega) (by omega)
          (fun k h1 h2 => hfail k (by omega) (by omega))]
        simp [lastErrAfter, attemptsWithWaits]
      | succ n =>
        have hmore : (a : Int) < attempts - 1 := by omega
        rw [if_pos hmore, hrec _ (by push_cast; omega) (by omega)
          (fun k h1 h2 => hfail k (by omega) (by omega))]
        simp [lastErrAfter, attemptsWithWaits]

/-- The loop when the attempt `m` iterations ahead is the first to succeed and no wait
before it is cut short: it returns (true, nil) right after that attempt. -/
theorem retryLoop_first_success (env : Env) (attempts : Int) (hA : attempts ≤ maxInt)
    (m : Nat) :
    ∀ (a fuel : Nat) (lastErr : Option String) (events : List Event),
      (a : Int) + m < attempts → m < fuel →
      (∀ k, a ≤ k → k < a + m → ¬ succeeds env k) → succeeds env (a + m) →
      (∀ k, a ≤ k → k < a + m → env.ctxDone k = none) →
      retryLoop env attempts fuel a lastErr events =
        some ⟨true, none, events ++ attemptsWithWaits (m + 1)⟩ := by
  rw [maxInt_eq] at hA
  induction m with
  | zero =>
    intro a fuel lastErr events ha hfuel _ hs _
    cases fuel with
    | zero => omega
    | succ fuel =>
      have hlt : (a : Int) < attempts := by omega
      have hs : (env.checkOnce a).2 = none ∧ (env.checkOnce a).1 = true := hs
      unfold retryLoop
      simp only [hlt, if_true, Int.toNat_ofNat, hs, and_self, attemptsWithWaits]
  | succ m ih =>
    intro a fuel lastErr events ha hfuel hfail hs hctx
    cases fuel with
    | zero => omega
    | succ fuel =>
      have hlt : (a : Int) < attempts := by omega
      have hns : ¬ ((env.checkOnce a).2 = none ∧ (env.checkOnce a).1 = true) :=
        hfail a (le_refl a) (by omega)
      have hw1 : wrapInt (attempts - 1) = attempts - 1 :=
        wrapInt_of_fits _ (by omega) (by omega)
      have hw2 : wrapInt ((a : Int) + 1) = ((a + 1 : Nat) : Int) := by
        rw [wrapInt_of_fits _ (by omega) (by omega)]; push_cast; rfl
      have hmore : (a : Int) < attempts - 1 := by omega
      have hrec := ih (a + 1) fuel
        (if (env.checkOnce a).2 ≠ none then (env.checkOnce a).2 else lastErr)
        (events ++ [Event.checkOnce] ++ [Event.wait 150]) (by push_cast; omega) (by omega)
        (fun k h1 h2 => hfail k (by omega) (by omega))
        (by rw [show a + 1 + m = a + (m + 1) by omega]; exact hs)
        (fun k h1 h2 => hctx k (by omega) (by omega))
      unfold retryLoop
      simp only [hlt, if_true, Int.toNat_ofNat, hns, if_false, hw1, hw2, hmore,
        hctx a (le_refl a) (by omega)]
      rw [hrec]
      simp [attemptsWithWaits]

theorem count_checkOnce_attemptsWithWaits (n : Nat) :
    (attemptsWithWaits n).count Event.checkOnce = n := by
  induction n using Nat.strong_induction_on with
  | _ n ih =>
    match n with
    | 0 => rfl
    | 1 => rfl
    | n + 2 =>
      have := ih (n + 1) (by omega)
      simp [attemptsWithWaits, this]

theorem count_wait_attemptsWithWaits (n : Nat) :
    (attemptsWithWaits n).count (Event.wait 150) = n - 1 := by
  induction n using Nat.strong_induction_on with
  | _ n ih =>
    match n with
    | 0 => rfl
    | 1 => rfl
    | n + 2 =>
      have := ih (n + 1) (by omega)
      simp [attemptsWithWaits, this]

theorem getLast_attemptsWithWaits (n : Nat) :
    (attemptsWithWaits (n + 1)).getLast? = some Event.checkOnce := by
  induction n with
  | zero => rfl
  | succ n ih =>
    rw [attemptsWithWaits]
    cases h : attemptsWithWaits (n + 1) with
    | nil => rw [h] at ih; simp at ih
    | cons e es => rw [h] at ih; simpa [List.getLast?_cons_cons] using ih

theorem lastErrAfter_all_errors (env : Env) (herr : ∀ k, (env.checkOnce k).2 ≠ none)
    (n : Nat) : ∀ (a : Nat) (lastErr : Option String),
      lastErrAfter env a (n + 1) lastErr = (env.checkOnce (a + n)).2 := by
  induction n with
  | zero => intro a lastErr; simp [lastErrAfter, herr a]
  | succ n ih =>
    intro a lastErr
    rw [lastErrAfter, ih]
    congr 2
    omega

/-- The retrying check when every attempt returns an error and the context is never
cancelled, for `0 ≤ retries < maxInt`: `retries + 1` attempts, a wait of 150ms between
any two of them and none after the last, and the result is (false, the error of the last
attempt). -/
theorem CheckWithRetries_all_errors (env : Env) (retries : Int) (h0 : 0 ≤ retries)
    (hmax : retries < maxInt) (herr : ∀ k, (env.checkOnce k).2 ≠ none)
    (hctx : ∀ k, env.ctxDone k = none) :
    CheckWithRetries env retries =
      some ⟨false, (env.checkOnce retries.toNat).2, attemptsWithWaits (retries.toNat + 1)⟩ ∧
    (attemptsWithWaits (retries.toNat + 1)).count Event.checkOnce = retries.toNat + 1 ∧
    (attemptsWithWaits (retries.toNat + 1)).count (Event.wait 150) = retries.toNat ∧
    (attemptsWithWaits (retries.toNat + 1)).getLast? = some Event.checkOnce := by
  refine ⟨?_, count_checkOnce_attemptsWithWaits _, count_wait_attemptsWithWaits _,
    getLast_attemptsWithWaits _⟩
  have hm := maxInt_eq
  obtain ⟨n, rfl⟩ := Int.eq_ofNat_of_zero_le h0
  have hw : wrapInt ((n : Int) + 1) = ((n + 1 : Nat) : Int) := by
    rw [wrapInt_of_fits _ (by omega) (by omega)]; push_cast; rfl
  unfold CheckWithRetries
  simp only [hw, Int.toNat_ofNat]
  have h := retryLoop_exhausted env ((n + 1 : Nat) : Int) (by rw [hm]; omega) hctx (n + 1)
    0 (n + 1 + 1) none [] (by push_cast; omega) (by omega)
    (fun k _ _ hs => herr k hs.1)
  rw [lastErrAfter_all_errors env herr] at h
  simpa using h

/-- The retrying check when attempt `k` (counted from 1) is the first to return up with
no error and no wait before it is cut short, for `0 ≤ retries < maxInt` and
`k ≤ retries + 1`: the result is (true, nil) after exactly `k` attempts and `k - 1`
waits, the last event being the successful attempt, whatever errors the attempts before
it returned. -/
theorem CheckWithRetries_first_success (env : Env) (retries : Int) (k : Nat)
    (h0 : 0 ≤ retries) (hmax : retries < maxInt) (hk1 : 1 ≤ k) (hk2 : (k : Int) ≤ retries + 1)
    (hfail : ∀ j, j < k - 1 → ¬ succeeds env j) (hs : succeeds env (k - 1))
    (hctx : ∀ j, j < k - 1 → env.ctxDone j = none) :
    CheckWithRetries env retries = some ⟨true, none, attemptsWithWaits k⟩ ∧
    (attemptsWithWaits k).count Event.checkOnce = k ∧
    (attemptsWithWaits k).count (Event.wait 150) = k - 1 ∧
    (attemptsWithWaits k).getLast? = some Event.checkOnce := by
  obtain ⟨m, rfl⟩ : ∃ m, k = m + 1 := ⟨k - 1, by omega⟩
  refine ⟨?_, count_checkOnce_attemptsWithWaits _, count_wait_attemptsWithWaits _,
    getLast_attemptsWithWaits _⟩
  have hm := maxInt_eq
  obtain ⟨n, rfl⟩ := Int.eq_ofNat_of_zero_le h0
  have hw : wrapInt ((n : Int) + 1) = ((n + 1 : Nat) : Int) := by
    rw [wrapInt_of_fits _ (by omega) (by omega)]; push_cast; rfl
  unfold CheckWithRetries
  simp only [hw, Int.toNat_ofNat]
  simp only [Nat.add_sub_cancel] at hfail hs hctx
  have h := retryLoop_first_success env ((n + 1 : Nat) : Int) (by rw [hm]; omega) m
    0 (n + 1 + 1) none [] (by push_cast at hk2 ⊢; omega) (by push_cast at hk2; omega)
    (fun j _ h2 => hfail j (by omega)) (by simpa using hs)
    (fun j _ h2 => hctx j (by omega))
  simpa using h

theorem CheckWithRetries_all_errors_example :
    CheckWithRetries alwaysFailing 2 = some ⟨false, some "connection refused",
      [.checkOnce, .wait 150, .checkOnce, .wait 150, .checkOnce]⟩ :=
  (CheckWithRetries_all_errors alwaysFailing 2 (by decide) (by decide)
    (fun _ => by simp [alwaysFailing]) (fun _ => rfl)).1

theorem CheckWithRetries_first_success_example :
    CheckWithRetries upAtSecond 2 = some ⟨true, none, [.checkOnce, .wait 150, .checkOnce]⟩ :=
  (CheckWithRetries_first_success upAtSecond 2 2 (by decide) (by decide) (by decide)
    (by decide) (fun j hj => by
      have : j = 0 := by omega
      subst this
      simp [succeeds, upAtSecond])
    (by simp [succeeds, upAtSecond]) (fun _ _ => rfl)).1

/-- C9 fails at `retries = maxInt` (9223372036854775807): `attempts := retries + 1` wraps
to the least `int`, the loop body never runs, and a checker whose single check errors
every time is not called at all; the call returns (false, nil) instead of making
`retries + 1` attempts and returning the last error. -/
theorem C9_no_attempt_at_maxInt :
    0 ≤ maxInt ∧
    (∀ k, (alwaysFailing.checkOnce k).2 = some "connection refused") ∧
    (∀ k, alwaysFailing.ctxDone k = none) ∧
    wrapInt (maxInt + 1) = -9223372036854775808 ∧
    CheckWithRetries alwaysFailing maxInt = some ⟨false, none, []⟩ :=
  ⟨by decide, fun _ => rfl, fun _ => rfl, by decide, by decide⟩

/-- C10 fails at `retries = maxInt` (9223372036854775807): `attempts := retries + 1`
wraps to the least `int`, so a checker whose first attempt would report up with no error
is never called, and the call returns (false, nil) instead of (true, nil). -/
theorem C10_no_attempt_at_maxInt :
    0 ≤ maxInt ∧ succeeds alwaysUp 0 ∧ ((1 : Nat) : Int) ≤ maxInt + 1 ∧
    CheckWithRetries alwaysUp maxInt = some ⟨false, none, []⟩ :=
  ⟨by decide, ⟨rfl, rfl⟩, by decide, by decide⟩

/-! ### Exhausted retries and cancelled waits -/

theorem lastErrAfter_eq_none_iff (env : Env) (n : Nat) :
    ∀ (a : Nat) (lastErr : Option String),
      lastErrAfter env a n lastErr = none ↔
        lastErr = none ∧ ∀ k, a ≤ k → k < a + n → (env.checkOnce k).2 = none := by
  induction n with
  | zero =>
    intro a lastErr
    simp only [lastErrAfter, Nat.add_zero]
    exact ⟨fun h => ⟨h, fun k h1 h2 => by omega⟩, fun h => h.1⟩
  | succ n ih =>
    intro a lastErr
    rw [lastErrAfter, ih]
    constructor
    · rintro ⟨h1, h2⟩
      by_cases he : (env.checkOnce a).2 = none
      · simp only [he, ne_eq, not_true_eq_false, if_false] at h1
        refine ⟨h1, fun k hk1 hk2 => ?_⟩
        rcases Nat.eq_or_lt_of_le hk1 with rfl | hlt
        · exact he
        · exact h2 k hlt (by omega)
      · simp [he] at h1
    · rintro ⟨h1, h2⟩
      have he := h2 a (le_refl a) (by omega)
      refine ⟨by simp [he, h1], fun k hk1 hk2 => h2 k (by omega) (by omega)⟩

theorem lastErrAfter_all_none (env : Env) (n : Nat) :
    ∀ (a : Nat) (lastErr : Option String),
      (∀ k, a ≤ k → k < a + n → (env.checkOnce k).2 = none) →
      lastErrAfter env a n lastErr = lastErr := by
  induction n with
  | zero => intro a lastErr _; rfl
  | succ n ih =>
    intro a lastErr h
    rw [lastErrAfter, ih (a + 1)]
    · simp [h a (le_refl a) (by omega)]
    · exact fun k hk1 hk2 => h k (by omega) (by omega)

/-- The error kept after the attempts is that of the latest attempt that returned one:
later attempts that report down with no error leave it in place. -/
theorem lastErrAfter_latest (env : Env) (n : Nat) :
    ∀ (a j : Nat) (lastErr : Option String), a ≤ j → j < a + n →
      (env.checkOnce j).2 ≠ none →
      (∀ k, j < k → k < a + n → (env.checkOnce k).2 = none) →
      lastErrAfter env a n lastErr = (env.checkOnce j).2 := by
  induction n with
  | zero => intro a j lastErr h1 h2; omega
  | succ n ih =>
    intro a j lastErr h1 h2 hj hlater
    rw [lastErrAfter]
    rcases Nat.eq_or_lt_of_le h1 with rfl | hlt
    · simp only [ne_eq, hj, not_false_eq_true, if_true]
      exact lastErrAfter_all_none env n (a + 1) _
        (fun k hk1 hk2 => hlater k (by omega) (by omega))
    · exact ih (a + 1) j _ hlt (by omega) hj (fun k hk1 hk2 => hlater k hk1 (by omega))

/-- The retrying check when no attempt is an error-free up and the context is never
cancelled, for `0 ≤ retries < maxInt`: all `retries + 1` attempts are made and the result
is (false, the error kept from the latest attempt that returned one, nil if none did). -/
theorem CheckWithRetries_exhausted (env : Env) (retries : Int) (h0 : 0 ≤ retries)
    (hmax : retries < maxInt) (hfail : ∀ k, k ≤ retries.toNat → ¬ succeeds env k)
    (hctx : ∀ k, env.ctxDone k = none) :
    CheckWithRetries env retries =
      some ⟨false, lastErrAfter env 0 (retries.toNat + 1) none,
        attemptsWithWaits (retries.toNat + 1)⟩ := by
  have hm := maxInt_eq
  obtain ⟨n, rfl⟩ := Int.eq_ofNat_of_zero_le h0
  have hw : wrapInt ((n : Int) + 1) = ((n + 1 : Nat) : Int) := by
    rw [wrapInt_of_fits _ (by omega) (by omega)]; push_cast; rfl
  unfold CheckWithRetries
  simp only [hw, Int.toNat_ofNat]
  have h := retryLoop_exhausted env ((n + 1 : Nat) : Int) (by rw [hm]; omega) hctx (n + 1)
    0 (n + 1 + 1) none [] (by push_cast; omega) (by omega)
    (fun k _ hk => hfail k (by simp only [Int.toNat_ofNat]; omega))
  simpa using h

/-- The retrying check when no attempt is an error-free up and the context is never
cancelled, for `0 ≤ retries < maxInt`: the result is (false, e) with `e` the error of the
latest attempt that returned one, also when later attempts reported down with no error,
and (false, nil) exactly when no attempt returned an error. -/
theorem CheckWithRetries_exhausted_error (env : Env) (retries : Int) (h0 : 0 ≤ retries)
    (hmax : retries < maxInt) (hfail : ∀ k, k ≤ retries.toNat → ¬ succeeds env k)
    (hctx : ∀ k, env.ctxDone k = none) :
    ∃ r, CheckWithRetries env retries = some r ∧ r.isUp = false ∧
      (r.err = none ↔ ∀ k, k ≤ retries.toNat → (env.checkOnce k).2 = none) ∧
      (∀ j, j ≤ retries.toNat → (env.checkOnce j).2 ≠ none →
        (∀ k, j < k → k ≤ retries.toNat → (env.checkOnce k).2 = none) →
        r.err = (env.checkOnce j).2) := by
  refine ⟨_, CheckWithRetries_exhausted env retries h0 hmax hfail hctx, rfl, ?_, ?_⟩
  · show lastErrAfter env 0 (retries.toNat + 1) none = none ↔ _
    rw [lastErrAfter_eq_none_iff]
    constructor
    · exact fun h k hk => h.2 k (Nat.zero_le k) (by omega)
    · exact fun h => ⟨rfl, fun k _ hk => h k (by omega)⟩
  · intro j hj hej hlater
    exact lastErrAfter_latest env (retries.toNat + 1) 0 j none (Nat.zero_le j) (by omega) hej
      (fun k hk1 hk2 => hlater k hk1 (by omega))

theorem CheckWithRetries_exhausted_error_example :
    CheckWithRetries errorThenDown 2 = some ⟨false, some "connection refused",
      [.checkOnce, .wait 150, .checkOnce, .wait 150, .checkOnce]⟩ :=
  CheckWithRetries_exhausted errorThenDown 2 (by decide) (by decide)
    (fun k _ hs => by
      have h := hs.2
      by_cases hk : k = 0 <;> simp [errorThenDown, hk] at h)
    (fun _ => rfl)

/-- C11 fails at `retries = maxInt` (9223372036854775807): `attempts := retries + 1` wraps
to the least `int`, so no attempt is made; with a checker whose first attempt would
return an error and whose later attempts would report down, the call returns
(false, nil) instead of (false, the error of the first attempt). -/
theorem C11_no_attempt_at_maxInt :
    0 ≤ maxInt ∧ (∀ k, ¬ succeeds errorThenDown k) ∧
    (errorThenDown.checkOnce 0).2 = some "connection refused" ∧
    (∀ k, errorThenDown.ctxDone k = none) ∧
    CheckWithRetries errorThenDown maxInt = some ⟨false, none, []⟩ :=
  ⟨by decide,
    fun k hs => by
      have h := hs.2
      by_cases hk : k = 0 <;> simp [errorThenDown, hk] at h,
    rfl, fun _ => rfl, by decide⟩

theorem wrapInt_le_maxInt (x : Int) : wrapInt x ≤ maxInt := by
  rw [maxInt_eq]
  unfold wrapInt
  have e1 : (2 : Int) ^ (intSize - 1) = 9223372036854775808 := by decide
  have e2 : (2 : Int) ^ intSize = 18446744073709551616 := by decide
  rw [e1, e2]
  omega

/-- A run of the loop that ends in a cancelled wait: started at attempt `a` after `a`
calls of `CheckOnce`, it ends right after the cancellation of the wait that follows an
unsuccessful attempt `k`, with (false, `ctx.Err()`), whatever `lastErr` held. -/
theorem retryLoop_cancelled (env : Env) (attempts : Int) (hA : attempts ≤ maxInt) :
    ∀ (fuel a : Nat) (lastErr : Option String) (events : List Event) (r : RetryResult),
      retryLoop env attempts fuel a lastErr events = some r →
      Event.cancelled ∉ events → events.count Event.checkOnce = a →
      Event.cancelled ∈ r.events →
      r.isUp = false ∧
      ∃ k e, env.ctxDone k = some e ∧ r.err = some e ∧ ¬ succeeds env k ∧
        r.events.count Event.checkOnce = k + 1 ∧
        r.events.count Event.cancelled = 1 ∧
        r.events.getLast? = some Event.cancelled := by
  rw [maxInt_eq] at hA
  intro fuel
  induction fuel with
  | zero => intro a lastErr events r h; simp [retryLoop] at h
  | succ fuel ih =>
    intro a lastErr events r h hnc hcount hc
    unfold retryLoop at h
    by_cases hlt : (a : Int) < attempts
    · simp only [hlt, if_true, Int.toNat_ofNat] at h
      by_cases hs : (env.checkOnce a).2 = none ∧ (env.checkOnce a).1 = true
      · simp only [hs, and_self, if_true, Option.some.injEq] at h
        rw [← h] at hc
        simp [hnc] at hc
      · simp only [hs, if_false] at h
        have hw2 : wrapInt ((a : Int) + 1) = ((a + 1 : Nat) : Int) := by
          rw [wrapInt_of_fits _ (by omega) (by omega)]; push_cast; rfl
        rw [hw2] at h
        by_cases hmore : (a : Int) < wrapInt (attempts - 1)
        · simp only [hmore, if_true] at h
          cases hd : env.ctxDone a with
          | some e =>
            simp only [hd, Option.some.injEq] at h
            rw [← h]
            refine ⟨rfl, a, e, hd, rfl, hs, ?_, ?_, ?_⟩
            · simp [List.count_append, hcount]
            · simp [List.count_append, List.count_eq_zero_of_not_mem hnc]
            · simp
          | none =>
            simp only [hd] at h
            exact ih (a + 1) _ _ r h (by simp [hnc]) (by simp [List.count_append, hcount]) hc
        · simp only [hmore, if_false] at h
          exact ih (a + 1) _ _ r h (by simp [hnc]) (by simp [List.count_append, hcount]) hc
    · rw [if_neg hlt] at h
      have hev : r.events = events := by
        split at h <;> (simp only [Option.some.injEq] at h; rw [← h])
      rw [hev] at hc
      exact absurd hc hnc

/-- The loop when the wait that follows attempt `a + m` is the first to be cut short, no
attempt up to that one succeeds and that attempt is not the last: the loop ends there
with (false, `ctx.Err()`). -/
theorem retryLoop_cancelled_at (env : Env) (attempts : Int) (hA : attempts ≤ maxInt)
    (e : String) (m : Nat) :
    ∀ (a fuel : Nat) (lastErr : Option String) (events : List Event),
      (a : Int) + m < attempts - 1 → m < fuel →
      (∀ k, a ≤ k → k ≤ a + m → ¬ succeeds env k) →
      (∀ k, a ≤ k → k < a + m → env.ctxDone k = none) → env.ctxDone (a + m) = some e →
      retryLoop env attempts fuel a lastErr events =
        some ⟨false, some e, events ++ attemptsWithWaits (m + 1) ++ [Event.cancelled]⟩ := by
  rw [maxInt_eq] at hA
  induction m with
  | zero =>
    intro a fuel lastErr events ha hfuel hfail _ hd
    cases fuel with
    | zero => omega
    | succ fuel =>
      have hlt : (a : Int) < attempts := by omega
      have hns : ¬ ((env.checkOnce a).2 = none ∧ (env.checkOnce a).1 = true) :=
        hfail a (le_refl a) (by omega)
      have hw1 : wrapInt (attempts - 1) = attempts - 1 :=
        wrapInt_of_fits _ (by omega) (by omega)
      have hmore : (a : Int) < attempts - 1 := by omega
      have hd : env.ctxDone a = some e := hd
      unfold retryLoop
      simp only [hlt, if_true, Int.toNat_ofNat, hns, if_false, hw1, hmore, hd,
        attemptsWithWaits]
  | succ m ih =>
    intro a fuel lastErr events ha hfuel hfail hctx hd
    cases fuel with
    | zero => omega
    | succ fuel =>
      have hlt : (a : Int) < attempts := by omega
      have hns : ¬ ((env.checkOnce a).2 = none ∧ (env.checkOnce a).1 = true) :=
        hfail a (le_refl a) (by omega)
      have hw1 : wrapInt (attempts - 1) = attempts - 1 :=
        wrapInt_of_fits _ (by omega) (by omega)
      have hw2 : wrapInt ((a : Int) + 1) = ((a + 1 : Nat) : Int) := by
        rw [wrapInt_of_fits _ (by omega) (by omega)]; push_cast; rfl
      have hmore : (a : Int) < attempts - 1 := by omega
      have hrec := ih (a + 1) fuel
        (if (env.checkOnce a).2 ≠ none then (env.checkOnce a).2 else lastErr)
        (events ++ [Event.checkOnce] ++ [Event.wait 150]) (by push_cast; omega) (by omega)
        (fun k h1 h2 => hfail k (by omega) (by omega))
        (fun k h1 h2 => hctx k (by omega) (by omega))
        (by rw [show a + 1 + m = a + (m + 1) by omega]; exact hd)
      unfold retryLoop
      simp only [hlt, if_true, Int.toNat_ofNat, hns, if_false, hw1, hw2, hmore,
        hctx a (le_refl a) (by omega)]
      rw [hrec]
      simp [attemptsWithWaits]

/-- The retrying check when the context is cancelled during the wait that follows
attempt `j` (counted from 0), for `0 ≤ retries < maxInt` and `j < retries`, no attempt up
to `j` being an error-free up and no earlier wait being cut short: the result is
(false, `ctx.Err()`) after `j + 1` attempts, whatever errors they returned. -/
theorem CheckWithRetries_cancelled_at (env : Env) (retries : Int) (j : Nat) (e : String)
    (h0 : 0 ≤ retries) (hmax : retries < maxInt) (hj : (j : Int) < retries)
    (hfail : ∀ k, k ≤ j → ¬ succeeds env k) (hctx : ∀ k, k < j → env.ctxDone k = none)
    (hd : env.ctxDone j = some e) :
    CheckWithRetries env retries =
      some ⟨false, some e, attemptsWithWaits (j + 1) ++ [Event.cancelled]⟩ := by
  have hm := maxInt_eq
  obtain ⟨n, rfl⟩ := Int.eq_ofNat_of_zero_le h0
  have hw : wrapInt ((n : Int) + 1) = ((n + 1 : Nat) : Int) := by
    rw [wrapInt_of_fits _ (by omega) (by omega)]; push_cast; rfl
  unfold CheckWithRetries
  simp only [hw, Int.toNat_ofNat]
  have h := retryLoop_cancelled_at env ((n + 1 : Nat) : Int) (by rw [hm]; omega) e j
    0 (n + 1 + 1) none [] (by push_cast; omega) (by omega)
    (fun k _ hk => hfail k (by omega)) (fun k _ hk => hctx k (by omega))
    (by simpa using hd)
  simpa using h

/-- Whenever the events of a call of `CheckWithRetries` include a wait cut short by the
cancellation of the context, the call ended there: the result is (false, `ctx.Err()`),
the cancelled wait follows an unsuccessful attempt and is the last event. -/
theorem CheckWithRetries_cancelled_event (env : Env) (retries : Int) (r : RetryResult)
    (h : CheckWithRetries env retries = some r) (hc : Event.cancelled ∈ r.events) :
    r.isUp = false ∧
    ∃ k e, env.ctxDone k = some e ∧ r.err = some e ∧ ¬ succeeds env k ∧
      r.events.count Event.checkOnce = k + 1 ∧
      r.events.count Event.cancelled = 1 ∧
      r.events.getLast? = some Event.cancelled :=
  retryLoop_cancelled env _ (wrapInt_le_maxInt _) _ 0 none [] r h (by simp) rfl hc

theorem count_checkOnce_cancelled (n : Nat) :
    (attemptsWithWaits n ++ [Event.cancelled]).count Event.checkOnce = n := by
  rw [List.count_append, count_checkOnce_attemptsWithWaits]
  rfl

theorem count_wait_cancelled (n : Nat) :
    (attemptsWithWaits n ++ [Event.cancelled]).count (Event.wait 150) = n - 1 := by
  rw [List.count_append, count_wait_attemptsWithWaits]
  rfl

/-- C12: if the context is cancelled during the wait that follows attempt `j` (counted
from 0), that attempt and those before it being unsuccessful, no earlier wait being cut
short, and attempt `j` being made and not the last (`attempt < attempts` and
`attempt < attempts-1` in the loop, with `attempts := retries + 1`), then the call ends
there: it returns (false, `ctx.Err()`), whatever errors the attempts returned, after
exactly `j + 1` calls of `CheckOnce` and `j` full waits, the cancelled wait being the last
event, for every number of retries. -/
theorem C12_cancelled_wait_aborts (env : Env) (retries : Int) (j : Nat) (e : String)
    (hmade : (j : Int) < wrapInt (retries + 1))
    (hnotlast : (j : Int) < wrapInt (wrapInt (retries + 1) - 1))
    (hfail : ∀ k, k ≤ j → ¬ succeeds env k) (hctx : ∀ k, k < j → env.ctxDone k = none)
    (hd : env.ctxDone j = some e) :
    CheckWithRetries env retries =
      some ⟨false, some e, attemptsWithWaits (j + 1) ++ [Event.cancelled]⟩ ∧
    (attemptsWithWaits (j + 1) ++ [Event.cancelled]).count Event.checkOnce = j + 1 ∧
    (attemptsWithWaits (j + 1) ++ [Event.cancelled]).count (Event.wait 150) = j ∧
    (attemptsWithWaits (j + 1) ++ [Event.cancelled]).getLast? = some Event.cancelled := by
  refine ⟨?_, count_checkOnce_cancelled _, count_wait_cancelled _, by simp⟩
  have hA := wrapInt_le_maxInt (retries + 1)
  have hm := maxInt_eq
  have hw : wrapInt (wrapInt (retries + 1) - 1) = wrapInt (retries + 1) - 1 :=
    wrapInt_of_fits _ (by omega) (by omega)
  rw [hw] at hnotlast
  unfold CheckWithRetries
  have h := retryLoop_cancelled_at env (wrapInt (retries + 1)) hA e j
    0 ((wrapInt (retries + 1)).toNat + 1) none [] (by push_cast; omega) (by omega)
    (fun k _ hk => hfail k (by omega)) (fun k _ hk => hctx k (by omega))
    (by simpa using hd)
  simpa using h

theorem C12_cancelled_wait_aborts_witness :
    CheckWithRetries cancelledInFourthWait 5 = some ⟨false, some "context canceled",
      [.checkOnce, .wait 150, .checkOnce, .wait 150, .checkOnce, .wait 150, .checkOnce,
        .cancelled]⟩ :=
  (C12_cancelled_wait_aborts cancelledInFourthWait 5 3 "context canceled" (by decide)
    (by decide) (fun k _ hs => by simp [succeeds, cancelledInFourthWait] at hs)
    (fun k hk => by
      have h3 : k ≠ 3 := by omega
      simp [cancelledInFourthWait, h3])
    rfl).1

/-- For `0 ≤ retries < maxInt`, attempt `j` is made and is not the last exactly when
`j < retries`. -/
theorem not_last_iff (retries : Int) (j : Nat) (h0 : 0 ≤ retries) (hmax : retries < maxInt) :
    ((j : Int) < wrapInt (retries + 1) ∧ (j : Int) < wrapInt (wrapInt (retries + 1) - 1)) ↔
      (j : Int) < retries := by
  have hm := maxInt_eq
  have hw : wrapInt (retries + 1) = retries + 1 := wrapInt_of_fits _ (by omega) (by omega)
  have hw2 : wrapInt (retries + 1 - 1) = retries := by
    rw [wrapInt_of_fits _ (by omega) (by omega)]; omega
  rw [hw, hw2]
  omega

/-! ### The redirect policy and the status test -/

theorem clientDo_chain_ok (n : Nat) (code : Int) (hn : n ≤ 9) (m : Nat) :
    ∀ (i fuel : Nat) (reqs : List Nat), i + m = n → m < fuel → reqs.length = i →
      clientDo CheckRedirect (redirectChain n code) fuel i reqs = some (.ok code) := by
  induction m with
  | zero =>
    intro i fuel reqs hi hf _
    cases fuel with
    | zero => omega
    | succ fuel => simp [clientDo, redirectChain, show ¬ i < n by omega]
  | succ m ih =>
    intro i fuel reqs hi hf hl
    cases fuel with
    | zero => omega
    | succ fuel =>
      have hlt : i < n := by omega
      have hp : CheckRedirect (i + 1) (reqs ++ [i]) = none := by
        simp only [CheckRedirect, List.length_append, List.length_singleton, hl]
        rw [if_neg (by omega)]
      simp only [clientDo, redirectChain, hlt, if_true, hp]
      exact ih (i + 1) fuel _ (by omega) (by omega) (by simp [hl])

theorem clientDo_chain_stopped (n : Nat) (code : Int) (hn : 10 ≤ n) (m : Nat) :
    ∀ (i fuel : Nat) (reqs : List Nat), i + m = 9 → m < fuel → reqs.length = i →
      clientDo CheckRedirect (redirectChain n code) fuel i reqs =
        some (.error "stopped after 10 redirects") := by
  induction m with
  | zero =>
    intro i fuel reqs hi hf hl
    cases fuel with
    | zero => omega
    | succ fuel =>
      have hlt : i < n := by omega
      have hp : CheckRedirect (i + 1) (reqs ++ [i]) = some "stopped after 10 redirects" := by
        simp only [CheckRedirect, List.length_append, List.length_singleton, hl]
        rw [if_pos (by omega)]
      simp only [clientDo, redirectChain, hlt, if_true, hp]
  | succ m ih =>
    intro i fuel reqs hi hf hl
    cases fuel with
    | zero => omega
    | succ fuel =>
      have hlt : i < n := by omega
      have hp : CheckRedirect (i + 1) (reqs ++ [i]) = none := by
        simp only [CheckRedirect, List.length_append, List.length_singleton, hl]
        rw [if_neg (by omega)]
      simp only [clientDo, redirectChain, hlt, if_true, hp]
      exact ih (i + 1) fuel _ (by omega) (by omega) (by simp [hl])

/-- C13, as stated, fails: consulted before the 10th redirect with the 10 requests made
so far, the policy rejects it, and a target that answers 200 after exactly 10 redirects
is reported down with the error `stopped after 10 redirects`. -/
theorem C13_counterexample :
    CheckRedirect (10 : Nat) [0, 1, 2, 3, 4, 5, 6, 7, 8, 9] =
      some "stopped after 10 redirects" ∧
    checkHTTPAgainst ∅ (redirectChain 10 200) 12 =
      some (false, some "stopped after 10 redirects") := by
  constructor <;> decide

/-- C13, amended: the redirect policy follows up to 9 redirects and fails on the 10th.
Consulted before the k-th redirect with the k requests made so far, it allows the
redirect exactly when k ≤ 9 and otherwise returns the error `stopped after 10 redirects`;
so a target that answers 200 after at most 9 redirects is reported up, and one that
issues 10 or more redirects in a row, 12 for instance, is reported down with that
error. -/
theorem C13_redirect_policy (request : Nat) (via : List Nat) (n : Nat) (fuel : Nat)
    (hfuel : 10 ≤ fuel) :
    (CheckRedirect request via = none ↔ via.length ≤ 9) ∧
    (10 ≤ via.length → CheckRedirect request via = some "stopped after 10 redirects") ∧
    (n ≤ 9 → checkHTTPAgainst ∅ (redirectChain n 200) fuel = some (true, none)) ∧
    (10 ≤ n → checkHTTPAgainst ∅ (redirectChain n 200) fuel =
      some (false, some "stopped after 10 redirects")) ∧
    checkHTTPAgainst ∅ (redirectChain 12 200) fuel =
      some (false, some "stopped after 10 redirects") := by
  have hstop : ∀ k, 10 ≤ k → checkHTTPAgainst ∅ (redirectChain k 200) fuel =
      some (false, some "stopped after 10 redirects") := by
    intro k hk
    unfold checkHTTPAgainst
    rw [clientDo_chain_stopped k 200 hk 9 0 fuel [] rfl (by omega) rfl]
    rfl
  refine ⟨?_, ?_, ?_, hstop n, hstop 12 (by decide)⟩
  · unfold CheckRedirect
    by_cases h : via.length ≥ 10
    · simp only [h, if_true]
      constructor
      · intro h'; cases h'
      · intro h'; omega
    · simp only [h, if_false, true_iff]
      omega
  · intro h
    simp [CheckRedirect, h]
  · intro hn
    unfold checkHTTPAgainst
    rw [clientDo_chain_ok n 200 hn n 0 fuel [] (by omega) (by omega) rfl]
    rfl

theorem C13_redirect_policy_witness :
    checkHTTPAgainst ∅ (redirectChain 9 200) 12 = some (true, none) ∧
    checkHTTPAgainst ∅ (redirectChain 12 200) 12 =
      some (false, some "stopped after 10 redirects") :=
  ⟨(C13_redirect_policy 0 [] 9 12 (by decide)).2.2.1 (by decide),
    (C13_redirect_policy 0 [] 12 12 (by decide)).2.2.2.1 (by decide)⟩

/-- C14: for every final status code `c` and every expected-status set `S`, the HTTP check
returns no error and reports up exactly when `200 ≤ c ≤ 399` if `S` is empty, and exactly
when `c` is in `S` if `S` is not empty; with `S` the set of 202 the status 202 is up, and
with `S` empty the status 404 is down with no error. -/
theorem C14_status_verdict (S : Finset Int) (c : Int) :
    (checkHTTP S none (.ok c)).2 = none ∧
    (S = ∅ → ((checkHTTP S none (.ok c)).1 = true ↔ 200 ≤ c ∧ c ≤ 399)) ∧
    (S ≠ ∅ → ((checkHTTP S none (.ok c)).1 = true ↔ c ∈ S)) ∧
    checkHTTP {202} none (.ok 202) = (true, none) ∧
    checkHTTP ∅ none (.ok 404) = (false, none) := by
  refine ⟨?_, ?_, ?_, by decide, by decide⟩
  · unfold checkHTTP
    simp only
    split <;> rfl
  · intro h
    subst h
    simp [checkHTTP]
  · intro h
    have hc : S.card ≠ 0 := fun h0 => h (Finset.card_eq_zero.mp h0)
    simp [checkHTTP, hc]

theorem C14_status_verdict_witness :
    ((checkHTTP {200, 204} none (.ok 301)).1 = true ↔ (301 : Int) ∈ ({200, 204} : Finset Int)) ∧
    ((checkHTTP ∅ none (.ok 301)).1 = true ↔ (200 : Int) ≤ 301 ∧ (301 : Int) ≤ 399) :=
  ⟨(C14_status_verdict {200, 204} 301).2.2.1 (by decide),
    (C14_status_verdict ∅ 301).2.1 rfl⟩

/-! ### The ping arguments -/

/-- What `buildPingArgs` returns for a target that is not white space only: five
arguments ending in the target as given; on Windows `-n 1 -w` with the timeout in whole
milliseconds, 1000 when that is not positive; elsewhere `-c 1 -W` with
`int(timeout.Seconds())`, 1 when that is below 1, whatever `net.ParseIP` says of the
target. -/
theorem buildPingArgs_eq (GOOS : String) (parseIP : String → Option String)
    (target : String) (timeout : Duration) (ht : TrimSpace target ≠ "") :
    (GOOS = "windows" →
      buildPingArgs GOOS parseIP target timeout =
        .ok ["-n", "1", "-w",
          Itoa (if Milliseconds timeout ≤ 0 then 1000 else Milliseconds timeout), target]) ∧
    (GOOS ≠ "windows" →
      buildPingArgs GOOS parseIP target timeout =
        .ok ["-c", "1", "-W",
          Itoa (if (Seconds timeout).toInt < 1 then 1 else (Seconds timeout).toInt),
          target]) := by
  constructor
  · intro hw
    simp [buildPingArgs, ht, hw]
  · intro hw
    by_cases hd : GOOS = "darwin"
    · simp [buildPingArgs, ht, hd]
    · simp [buildPingArgs, ht, hw, hd]

set_option maxRecDepth 100000 in
/-- C15 fails for the timeout 16777216.999999999s (16777216999999999 nanoseconds): the
timeout in whole seconds, truncated, is 16777216, but `timeout.Seconds()` rounds
`16777216 + 0.999999999` to the `float64` 16777217, so on macOS and on the other
non-Windows platforms the fourth argument is `16777217`. -/
theorem C15_seconds_rounded_up :
    TrimSpace "example.com" ≠ "" ∧
    Int.tdiv 16777216999999999 1000000000 = 16777216 ∧
    Seconds 16777216999999999 = ⟨false, 16777217 * 2 ^ 28, -28⟩ ∧
    buildPingArgs "darwin" (fun _ => none) "example.com" 16777216999999999 =
      .ok ["-c", "1", "-W", "16777217", "example.com"] ∧
    buildPingArgs "linux" (fun _ => none) "example.com" 16777216999999999 =
      .ok ["-c", "1", "-W", "16777217", "example.com"] := by
  refine ⟨?_, ?_, ?_, ?_, ?_⟩ <;> decide

set_option maxRecDepth 100000 in
theorem buildPingArgs_examples :
    buildPingArgs "windows" (fun _ => none) " example.com" 3000000000 =
      .ok ["-n", "1", "-w", "3000", " example.com"] ∧
    buildPingArgs "windows" (fun _ => none) "example.com" 999999 =
      .ok ["-n", "1", "-w", "1000", "example.com"] ∧
    buildPingArgs "darwin" (fun _ => none) "example.com" 2999999999 =
      .ok ["-c", "1", "-W", "2", "example.com"] ∧
    buildPingArgs "linux" (fun _ => some "10.0.0.1") "10.0.0.1" 500000000 =
      .ok ["-c", "1", "-W", "1", "10.0.0.1"] ∧
    buildPingArgs "linux" (fun _ => none) " " 3000000000 = .error "icmp target is empty" := by
  refine ⟨?_, ?_, ?_, ?_, ?_⟩ <;> decide

/-! ### The ICMP check and the exit codes -/

/-- C16, as stated, fails: when the context is cancelled while the ping process is
running, the process is killed and `Run` returns an `*exec.ExitError`, which the check
reports as (false, nil), not as (false, err). -/
theorem C16_counterexample :
    killedByCancellation = .exitError (.signaled "killed") ∧
    checkICMP "linux" (fun _ => none) "example.com" 3000000000
      (fun _ => some killedByCancellation) = (false, none) := by
  constructor <;> decide

/-- C16, amended: the ICMP check maps the outcome of the ping subprocess as follows: exit
status 0 gives (true, nil); a process that started and did not complete successfully
(an `*exec.ExitError`: a non-zero exit code, or a termination by a signal, as when the
context is cancelled while the process runs) gives (false, nil); every other failure to
launch or run it, a missing binary for one, gives (false, err) with `err` the cause; and
a target that is white space only gives (false, err) before any process is started. -/
theorem C16_icmp_outcomes (GOOS : String) (parseIP : String → Option String)
    (target : String) (timeout : Duration) (run : List String → Option RunError)
    (args : List String) (hargs : buildPingArgs GOOS parseIP target timeout = .ok args) :
    (run args = none → checkICMP GOOS parseIP target timeout run = (true, none)) ∧
    (∀ state, run args = some (.exitError state) →
      checkICMP GOOS parseIP target timeout run = (false, none)) ∧
    (∀ code, code ≠ 0 → run args = some (.exitError (.exited code)) →
      checkICMP GOOS parseIP target timeout run = (false, none)) ∧
    (run args = some killedByCancellation →
      checkICMP GOOS parseIP target timeout run = (false, none)) ∧
    (∀ err, run args = some (.other err) →
      checkICMP GOOS parseIP target timeout run = (false, some err)) := by
  unfold checkICMP
  rw [hargs]
  refine ⟨?_, ?_, ?_, ?_, ?_⟩
  · intro h; simp [h]
  · intro state h; simp [h]
  · intro code _ h; simp [h]
  · intro h; simp [h, killedByCancellation]
  · intro err h; simp [h]

theorem C16_icmp_outcomes_witness :
    checkICMP "linux" (fun _ => none) "example.com" 3000000000
      (fun _ => some (.exitError (.exited 1))) = (false, none) ∧
    checkICMP "linux" (fun _ => none) "example.com" 3000000000
      (fun _ => some (.other "exec: \"ping\": executable file not found in $PATH")) =
      (false, some "exec: \"ping\": executable file not found in $PATH") :=
  have h := fun run => C16_icmp_outcomes "linux" (fun _ => none) "example.com" 3000000000 run
    ["-c", "1", "-W", "3", "example.com"] (by decide)
  ⟨(h _).2.2.1 1 (by decide) rfl, (h _).2.2.2.2 _ rfl⟩

theorem checkICMP_empty_target (GOOS : String) (parseIP : String → Option String)
    (target : String) (timeout : Duration) (run : List String → Option RunError)
    (ht : TrimSpace target = "") :
    checkICMP GOOS parseIP target timeout run = (false, some "icmp target is empty") := by
  simp [checkICMP, buildPingArgs, ht]

/-- The exit codes of the run-once branch: 0 exactly when the check reported up with no
error, 1 in every other case, a cancellation error included. -/
theorem runOnce_eq (up : Bool) (checkErr : Option String) :
    (runOnce up checkErr = exitSuccess ↔ checkErr = none ∧ up = true) ∧
    (runOnce up checkErr = exitFailure ↔ ¬ (checkErr = none ∧ up = true)) ∧
    runOnce up checkErr ≠ exitCancelled := by
  cases up <;> cases checkErr <;> simp [runOnce, exitSuccess, exitFailure, exitCancelled]

/-- The exit codes of the interval loop: 0, after a round that reported up with no
error, or 130, after a round whose `select` took `<-ctx.Done()`; never 1. -/
theorem runInterval_exit (check : Nat → Bool × Option String) (ctxDone : Nat → Bool)
    (fuel : Nat) : ∀ (round code : Nat), runInterval check ctxDone fuel round = some code →
      (code = exitSuccess ∧ ∃ k, (check k).2 = none ∧ (check k).1 = true) ∨
      (code = exitCancelled ∧ ∃ k, ctxDone k = true ∧
        ¬ ((check k).2 = none ∧ (check k).1 = true)) := by
  induction fuel with
  | zero => intro round code h; simp [runInterval] at h
  | succ fuel ih =>
    intro round code h
    unfold runInterval at h
    by_cases hup : (check round).2 = none ∧ (check round).1 = true
    · rw [if_pos hup] at h
      exact Or.inl ⟨(Option.some.inj h).symm, round, hup⟩
    · rw [if_neg hup] at h
      by_cases hd : ctxDone round = true
      · rw [if_pos hd] at h
        exact Or.inr ⟨(Option.some.inj h).symm, round, hd, hup⟩
      · rw [if_neg hd] at h
        exact ih _ _ h

/-- C17 fails in run-once mode: when the context is cancelled during the wait between two
attempts, `CheckWithRetries` returns (false, `ctx.Err()`), and the run-once branch exits
with the failure code 1 for every error, where the interval loop exits with 130 on
`<-ctx.Done()`. -/
theorem C17_once_cancelled_exits_1 :
    CheckWithRetries cancelledInFirstWait 1 =
      some ⟨false, some "context canceled", [.checkOnce, .cancelled]⟩ ∧
    runChecks true (fun _ => retryAnswer (CheckWithRetries cancelledInFirstWait 1))
      (fun _ => true) 1 = some exitFailure ∧
    runChecks false (fun _ => retryAnswer (CheckWithRetries cancelledInFirstWait 1))
      (fun _ => true) 1 = some exitCancelled ∧
    exitFailure = 1 ∧ exitCancelled = 130 := by
  refine ⟨?_, ?_, ?_, ?_, ?_⟩ <;> decide

/-! ### Properties of the resolver -/

theorem trimSpaceChars_idem (l : List Char) :
    trimSpaceChars (trimSpaceChars l) = trimSpaceChars l := by
  unfold trimSpaceChars
  have hd : ((l.dropWhile isSpace).rdropWhile isSpace).dropWhile isSpace =
      (l.dropWhile isSpace).rdropWhile isSpace := by
    have hx : (l.dropWhile isSpace).dropWhile isSpace = l.dropWhile isSpace :=
      List.dropWhile_idempotent _ _
    rw [List.dropWhile_eq_self_iff] at hx ⊢
    intro hl
    obtain ⟨t, ht⟩ := List.rdropWhile_prefix isSpace (l := l.dropWhile isSpace)
    have hlx : 0 < (l.dropWhile isSpace).length := by
      rw [← ht, List.length_append]; omega
    have hget : ((l.dropWhile isSpace).rdropWhile isSpace).get ⟨0, hl⟩ =
        (l.dropWhile isSpace).get ⟨0, hlx⟩ := by
      have h1 : ((l.dropWhile isSpace).rdropWhile isSpace)[0]? = (l.dropWhile isSpace)[0]? := by
        conv_rhs => rw [← ht]
        rw [List.getElem?_append_left hl]
      simp only [List.get_eq_getElem]
      rw [List.getElem?_eq_getElem hl, List.getElem?_eq_getElem hlx] at h1
      exact Option.some.inj h1
    rw [hget]
    exact hx hlx
  rw [hd, List.rdropWhile_idempotent]

theorem TrimSpace_idem (s : String) : TrimSpace (TrimSpace s) = TrimSpace s := by
  apply String.ext
  exact trimSpaceChars_idem s.data

theorem trimTrailingSpace_TrimSpace (s : String) :
    trimTrailingSpace (TrimSpace s) = TrimSpace s := by
  apply String.ext
  show (trimSpaceChars s.data).rdropWhile isSpace = trimSpaceChars s.data
  unfold trimSpaceChars
  exact List.rdropWhile_idempotent _ _

/-- The resolver reads the target only through its trimmed form. -/
theorem resolve_TrimSpace (urlParse : String → Except String URL) (modeText target : String) :
    ResolveModeAndTarget urlParse modeText (TrimSpace target) =
      ResolveModeAndTarget urlParse modeText target := by
  unfold ResolveModeAndTarget
  rw [TrimSpace_idem]

theorem toNat_ofNat_lower : ∀ n, n < 91 → 65 ≤ n → (Char.ofNat (n + 32)).toNat = n + 32 := by
  decide

theorem toLowerRune_asciiLower (c : Char) : toLowerRune (asciiLower c) = toLowerRune c := by
  unfold asciiLower
  by_cases h : 65 ≤ c.toNat ∧ c.toNat ≤ 90
  · have hn := toNat_ofNat_lower c.toNat (by omega) h.1
    rw [if_pos h]
    unfold toLowerRune
    rw [if_pos h, hn, if_neg (by omega), if_neg (by omega), if_neg (by omega)]
  · rw [if_neg h]

theorem isSpace_asciiLower (c : Char) : isSpace (asciiLower c) = isSpace c := by
  unfold asciiLower
  by_cases h : 65 ≤ c.toNat ∧ c.toNat ≤ 90
  · have hn := toNat_ofNat_lower c.toNat (by omega) h.1
    rw [if_pos h]
    have h1 : isSpace (Char.ofNat (c.toNat + 32)) = false := by
      unfold isSpace
      simp only [hn, Bool.or_eq_false_iff, beq_eq_false_iff_ne, Bool.and_eq_false_iff,
        decide_eq_false_iff_not]
      omega
    have h2 : isSpace c = false := by
      unfold isSpace
      simp only [Bool.or_eq_false_iff, beq_eq_false_iff_ne, Bool.and_eq_false_iff,
        decide_eq_false_iff_not]
      omega
    rw [h1, h2]
  · rw [if_neg h]

theorem trimSpaceChars_map_asciiLower (l : List Char) :
    trimSpaceChars (l.map asciiLower) = (trimSpaceChars l).map asciiLower := by
  have hcomp : isSpace ∘ asciiLower = isSpace := funext isSpace_asciiLower
  have hdrop : ∀ l : List Char,
      (l.map asciiLower).dropWhile isSpace = (l.dropWhile isSpace).map asciiLower := by
    intro l
    rw [List.dropWhile_map, hcomp]
  unfold trimSpaceChars
  rw [hdrop]
  unfold List.rdropWhile
  rw [← List.map_reverse, hdrop, List.map_reverse]

/-- Hints that differ only in the case of their letters are the same hint once trimmed
and lower-cased. -/
theorem normalized_eq_of_sameUpToCase (h₁ h₂ : String) (h : sameUpToCase h₁ h₂) :
    ToLower (TrimSpace h₁) = ToLower (TrimSpace h₂) := by
  have key : ∀ s : String, (ToLower (TrimSpace s)).data =
      (trimSpaceChars (s.data.map asciiLower)).map toLowerRune := by
    intro s
    rw [trimSpaceChars_map_asciiLower, List.map_map]
    show (trimSpaceChars s.data).map toLowerRune = _
    apply List.map_congr_left
    intro c _
    exact (toLowerRune_asciiLower c).symm
  apply String.ext
  rw [key, key]
  unfold sameUpToCase at h
  rw [h]

/-- Every successful result of the resolver, by the branch that produced it. -/
theorem resolve_ok_cases (urlParse : String → Except String URL) (m tg : String)
    (hok : (ResolveModeAndTarget urlParse m tg).err = none) :
    TrimSpace tg ≠ "" ∧
    ((ToLower (TrimSpace m) = "icmp" ∧
        ResolveModeAndTarget urlParse m tg = ⟨ModeICMP, TrimSpace tg, none⟩) ∨
      (ToLower (TrimSpace m) = "http" ∧ HasPrefix (TrimSpace tg) "http://" = true ∧
        ResolveModeAndTarget urlParse m tg = ⟨ModeHTTP, TrimSpace tg, none⟩) ∨
      (ToLower (TrimSpace m) = "http" ∧ HasPrefix (TrimSpace tg) "http://" = false ∧
        HasPrefix (TrimSpace tg) "https://" = false ∧
        ResolveModeAndTarget urlParse m tg = ⟨ModeHTTP, "http://" ++ TrimSpace tg, none⟩) ∨
      (ToLower (TrimSpace m) = "https" ∧ HasPrefix (TrimSpace tg) "https://" = true ∧
        ResolveModeAndTarget urlParse m tg = ⟨ModeHTTPS, TrimSpace tg, none⟩) ∨
      (ToLower (TrimSpace m) = "https" ∧ HasPrefix (TrimSpace tg) "http://" = false ∧
        HasPrefix (TrimSpace tg) "https://" = false ∧
        ResolveModeAndTarget urlParse m tg = ⟨ModeHTTPS, "https://" ++ TrimSpace tg, none⟩) ∨
      (ToLower (TrimSpace m) = "auto" ∧
        (ResolveModeAndTarget urlParse m tg = ⟨ModeICMP, TrimSpace tg, none⟩ ∨
          ResolveModeAndTarget urlParse m tg = ⟨ModeHTTP, TrimSpace tg, none⟩ ∨
          ResolveModeAndTarget urlParse m tg = ⟨ModeHTTPS, TrimSpace tg, none⟩))) := by
  by_cases ht : TrimSpace tg = ""
  · simp [ResolveModeAndTarget, ht] at hok
  refine ⟨ht, ?_⟩
  by_cases h1 : ToLower (TrimSpace m) = "icmp"
  · exact Or.inl ⟨h1, resolve_icmp urlParse m tg ht h1⟩
  by_cases h2 : ToLower (TrimSpace m) = "http"
  · have hr := resolve_http urlParse m tg ht h2
    cases p1 : HasPrefix (TrimSpace tg) "http://"
    · cases p2 : HasPrefix (TrimSpace tg) "https://"
      · rw [p1, p2] at hr
        exact Or.inr (Or.inr (Or.inl ⟨h2, rfl, rfl, by simpa using hr⟩))
      · rw [p1, p2] at hr
        rw [hr] at hok
        simp at hok
    · rw [p1] at hr
      exact Or.inr (Or.inl ⟨h2, rfl, by simpa using hr⟩)
  by_cases h3 : ToLower (TrimSpace m) = "https"
  · have hr := resolve_https urlParse m tg ht h3
    cases p2 : HasPrefix (TrimSpace tg) "https://"
    · cases p1 : HasPrefix (TrimSpace tg) "http://"
      · rw [p1, p2] at hr
        exact Or.inr (Or.inr (Or.inr (Or.inr (Or.inl ⟨h3, rfl, rfl, by simpa using hr⟩))))
      · rw [p1, p2] at hr
        rw [hr] at hok
        simp at hok
    · rw [p2] at hr
      exact Or.inr (Or.inr (Or.inr (Or.inl ⟨h3, rfl, by simpa using hr⟩)))
  by_cases h4 : ToLower (TrimSpace m) = "auto"
  · refine Or.inr (Or.inr (Or.inr (Or.inr (Or.inr ⟨h4, ?_⟩))))
    cases p1 : HasPrefix (TrimSpace tg) "http://"
    · cases p2 : HasPrefix (TrimSpace tg) "https://"
      · rw [resolve_auto_other urlParse m tg ht h4 p1 p2]
        cases urlParse (TrimSpace tg) with
        | error e => exact Or.inl rfl
        | ok parsed =>
          by_cases q1 : parsed.Scheme = "http"
          · simp [q1]
          · by_cases q2 : parsed.Scheme = "https"
            · simp [q2]
            · simp [q1, q2]
      · exact Or.inr (Or.inr (resolve_auto_https urlParse m tg ht h4 p2))
    · exact Or.inr (Or.inl (resolve_auto_http urlParse m tg ht h4 p1))
  · simp [ResolveModeAndTarget, ht, h1, h2, h3, h4] at hok

/-- The resolver reads the hint only through its trimmed, lower-cased form, the text of
the `unsupported mode` error apart. -/
theorem resolve_congr_hint (urlParse : String → Except String URL) (h₁ h₂ target : String)
    (h : ToLower (TrimSpace h₁) = ToLower (TrimSpace h₂)) :
    ((ResolveModeAndTarget urlParse h₁ target).err = none ↔
      (ResolveModeAndTarget urlParse h₂ target).err = none) ∧
    (ResolveModeAndTarget urlParse h₁ target).mode =
      (ResolveModeAndTarget urlParse h₂ target).mode ∧
    (ResolveModeAndTarget urlParse h₁ target).target =
      (ResolveModeAndTarget urlParse h₂ target).target := by
  by_cases ht : TrimSpace target = ""
  · simp [ResolveModeAndTarget, ht]
  by_cases h1 : ToLower (TrimSpace h₂) = "icmp"
  · rw [resolve_icmp urlParse h₁ target ht (h.trans h1), resolve_icmp urlParse h₂ target ht h1]
    simp
  by_cases h2 : ToLower (TrimSpace h₂) = "http"
  · rw [resolve_http urlParse h₁ target ht (h.trans h2), resolve_http urlParse h₂ target ht h2]
    simp
  by_cases h3 : ToLower (TrimSpace h₂) = "https"
  · rw [resolve_https urlParse h₁ target ht (h.trans h3),
      resolve_https urlParse h₂ target ht h3]
    simp
  by_cases h4 : ToLower (TrimSpace h₂) = "auto"
  · have e : ResolveModeAndTarget urlParse h₁ target =
        ResolveModeAndTarget urlParse h₂ target := by
      simp [ResolveModeAndTarget, h, h4]
    rw [e]
    simp
  · simp [ResolveModeAndTarget, ht, h, h1, h2, h3, h4]

/-- C18: a successful result of the resolver has one of the three modes icmp, http,
https, never `auto` and never the empty string; and when the hint is icmp, http or https
in any letter case, the mode returned is that one. -/
theorem C18_mode_is_resolved (urlParse : String → Except String URL)
    (modeText target : String)
    (hok : (ResolveModeAndTarget urlParse modeText target).err = none) :
    ((ResolveModeAndTarget urlParse modeText target).mode = ModeICMP ∨
      (ResolveModeAndTarget urlParse modeText target).mode = ModeHTTP ∨
      (ResolveModeAndTarget urlParse modeText target).mode = ModeHTTPS) ∧
    (ResolveModeAndTarget urlParse modeText target).mode ≠ "auto" ∧
    (ResolveModeAndTarget urlParse modeText target).mode ≠ "" ∧
    (sameUpToCase modeText "icmp" →
      (ResolveModeAndTarget urlParse modeText target).mode = ModeICMP) ∧
    (sameUpToCase modeText "http" →
      (ResolveModeAndTarget urlParse modeText target).mode = ModeHTTP) ∧
    (sameUpToCase modeText "https" →
      (ResolveModeAndTarget urlParse modeText target).mode = ModeHTTPS) := by
  have hthree : (ResolveModeAndTarget urlParse modeText target).mode = ModeICMP ∨
      (ResolveModeAndTarget urlParse modeText target).mode = ModeHTTP ∨
      (ResolveModeAndTarget urlParse modeText target).mode = ModeHTTPS := by
    rcases (resolve_ok_cases urlParse modeText target hok).2 with
      ⟨_, hr⟩ | ⟨_, _, hr⟩ | ⟨_, _, _, hr⟩ | ⟨_, _, hr⟩ | ⟨_, _, _, hr⟩ | ⟨_, hr | hr | hr⟩ <;>
      rw [hr] <;> simp
  have hnorm : ∀ name : String, sameUpToCase modeText name →
      ToLower (TrimSpace name) = name → ToLower (TrimSpace modeText) = name :=
    fun name hs hn => (normalized_eq_of_sameUpToCase modeText name hs).trans hn
  have hmode : ∀ name : String, ToLower (TrimSpace modeText) = name →
      (name = "icmp" → (ResolveModeAndTarget urlParse modeText target).mode = ModeICMP) ∧
      (name = "http" → (ResolveModeAndTarget urlParse modeText target).mode = ModeHTTP) ∧
      (name = "https" → (ResolveModeAndTarget urlParse modeText target).mode = ModeHTTPS) := by
    intro name hn
    rcases (resolve_ok_cases urlParse modeText target hok).2 with
      ⟨hm, hr⟩ | ⟨hm, _, hr⟩ | ⟨hm, _, _, hr⟩ | ⟨hm, _, hr⟩ | ⟨hm, _, _, hr⟩ | ⟨hm, _⟩ <;>
      rw [hn] at hm <;> subst hm <;> refine ⟨?_, ?_, ?_⟩ <;> intro hname <;>
      first
        | exact absurd hname (by decide)
        | (rw [hr])
  refine ⟨hthree, ?_, ?_, ?_, ?_, ?_⟩
  · rcases hthree with h | h | h <;> rw [h] <;> decide
  · rcases hthree with h | h | h <;> rw [h] <;> decide
  · exact fun hs => (hmode "icmp" (hnorm "icmp" hs (by decide))).1 rfl
  · exact fun hs => (hmode "http" (hnorm "http" hs (by decide))).2.1 rfl
  · exact fun hs => (hmode "https" (hnorm "https" hs (by decide))).2.2 rfl

theorem C18_mode_is_resolved_witness :
    (ResolveModeAndTarget schemeOnlyParse "HtTpS" "example.com").err = none ∧
    sameUpToCase "HtTpS" "https" ∧
    (ResolveModeAndTarget schemeOnlyParse "HtTpS" "example.com").mode = ModeHTTPS :=
  ⟨by decide, by decide,
    (C18_mode_is_resolved schemeOnlyParse "HtTpS" "example.com" (by decide)).2.2.2.2.2
      (by decide)⟩

theorem isSpace_toLowerRune (c : Char) : isSpace (toLowerRune c) = isSpace c := by
  have hk : isSpace 'k' = false := by decide
  have hi : isSpace 'i' = false := by decide
  have hns : ∀ c : Char, (65 ≤ c.toNat ∧ c.toNat ≤ 90) ∨ c.toNat = 0x130 ∨ c.toNat = 0x212A →
      isSpace c = false := by
    intro c hc
    unfold isSpace
    simp only [Bool.or_eq_false_iff, beq_eq_false_iff_ne, Bool.and_eq_false_iff,
      decide_eq_false_iff_not]
    omega
  unfold toLowerRune
  by_cases h : 65 ≤ c.toNat ∧ c.toNat ≤ 90
  · have hn := toNat_ofNat_lower c.toNat (by omega) h.1
    rw [if_pos h, hns c (Or.inl h)]
    unfold isSpace
    simp only [hn, Bool.or_eq_false_iff, beq_eq_false_iff_ne, Bool.and_eq_false_iff,
      decide_eq_false_iff_not]
    omega
  · rw [if_neg h]
    by_cases h1 : c.toNat = 0x130
    · rw [if_pos h1, hi, hns c (Or.inr (Or.inl h1))]
    · rw [if_neg h1]
      by_cases h2 : c.toNat = 0x212A
      · rw [if_pos h2, hk, hns c (Or.inr (Or.inr h2))]
      · rw [if_neg h2]

theorem trimSpaceChars_map_toLowerRune (l : List Char) :
    trimSpaceChars (l.map toLowerRune) = (trimSpaceChars l).map toLowerRune := by
  have hcomp : isSpace ∘ toLowerRune = isSpace := funext isSpace_toLowerRune
  have hdrop : ∀ l : List Char,
      (l.map toLowerRune).dropWhile isSpace = (l.dropWhile isSpace).map toLowerRune := by
    intro l
    rw [List.dropWhile_map, hcomp]
  unfold trimSpaceChars
  rw [hdrop]
  unfold List.rdropWhile
  rw [← List.map_reverse, hdrop, List.map_reverse]

/-- Lower-casing and trimming commute, so hints with the same lower-case form are the
same hint once trimmed and lower-cased. -/
theorem normalized_eq_of_ToLower_eq (h₁ h₂ : String) (h : ToLower h₁ = ToLower h₂) :
    ToLower (TrimSpace h₁) = ToLower (TrimSpace h₂) := by
  have key : ∀ s : String, (ToLower (TrimSpace s)).data = trimSpaceChars (ToLower s).data :=
    fun s => (trimSpaceChars_map_toLowerRune s.data).symm
  apply String.ext
  rw [key, key, h]

/-- Hints that differ only in the case of their ASCII letters have the same lower-case
form. -/
theorem ToLower_eq_of_sameUpToCase (h₁ h₂ : String) (h : sameUpToCase h₁ h₂) :
    ToLower h₁ = ToLower h₂ := by
  have key : ∀ s : String, (ToLower s).data = (s.data.map asciiLower).map toLowerRune := by
    intro s
    rw [List.map_map]
    show s.data.map toLowerRune = _
    apply List.map_congr_left
    intro c _
    exact (toLowerRune_asciiLower c).symm
  apply String.ext
  unfold sameUpToCase at h
  rw [key, key, h]

/-- C19, as stated, fails: `httpſ` (with U+017F, the long s, whose upper case is `S`)
and `HTTPS` differ only in letter case, the second being the upper case of the first, yet
the resolver accepts `HTTPS` and rejects `httpſ` as an unsupported mode; `ıcmp` (with
U+0131, the dotless i) and `ICMP` likewise. -/
theorem C19_counterexample :
    ToUpper "httpſ" = "HTTPS" ∧
    ResolveModeAndTarget schemeOnlyParse "HTTPS" "example.com" =
      ⟨ModeHTTPS, "https://example.com", none⟩ ∧
    ResolveModeAndTarget schemeOnlyParse "httpſ" "example.com" =
      ⟨"", "", some "unsupported mode: httpſ"⟩ ∧
    ToUpper "ıcmp" = "ICMP" ∧
    ResolveModeAndTarget schemeOnlyParse "ICMP" "example.com" =
      ⟨ModeICMP, "example.com", none⟩ ∧
    ResolveModeAndTarget schemeOnlyParse "ıcmp" "example.com" =
      ⟨"", "", some "unsupported mode: ıcmp"⟩ := by
  refine ⟨?_, ?_, ?_, ?_, ?_, ?_⟩ <;> decide

/-- C19, amended: the mode hint is matched through its lower-case form
(`strings.ToLower`): for every target and every pair of mode hints with the same
lower-case form, which includes every pair that differs only in the case of the ASCII
letters, such as `HTTP`, `Http`, `http`, the resolver agrees on success or failure and,
on success, returns the same mode and the same normalized target. -/
theorem C19_hint_case_insensitive (urlParse : String → Except String URL)
    (h₁ h₂ target : String) (h : ToLower h₁ = ToLower h₂) :
    ((ResolveModeAndTarget urlParse h₁ target).err = none ↔
      (ResolveModeAndTarget urlParse h₂ target).err = none) ∧
    ((ResolveModeAndTarget urlParse h₁ target).err = none →
      (ResolveModeAndTarget urlParse h₁ target).mode =
        (ResolveModeAndTarget urlParse h₂ target).mode ∧
      (ResolveModeAndTarget urlParse h₁ target).target =
        (ResolveModeAndTarget urlParse h₂ target).target) ∧
    (∀ a b : String, sameUpToCase a b → ToLower a = ToLower b) ∧
    sameUpToCase "HTTP" "Http" ∧ sameUpToCase "Http" "http" :=
  have hc := resolve_congr_hint urlParse h₁ h₂ target (normalized_eq_of_ToLower_eq h₁ h₂ h)
  ⟨hc.1, fun _ => hc.2, ToLower_eq_of_sameUpToCase, by decide, by decide⟩

theorem C19_hint_case_insensitive_witness :
    ToLower " HTTP" = ToLower " Http" ∧
    ResolveModeAndTarget schemeOnlyParse " HTTP" " example.com" =
      ⟨ModeHTTP, "http://example.com", none⟩ ∧
    (ResolveModeAndTarget schemeOnlyParse " HTTP" " example.com").mode =
      (ResolveModeAndTarget schemeOnlyParse " Http" " example.com").mode ∧
    (ResolveModeAndTarget schemeOnlyParse " HTTP" " example.com").target =
      (ResolveModeAndTarget schemeOnlyParse " Http" " example.com").target :=
  ⟨by decide, by decide,
    (C19_hint_case_insensitive schemeOnlyParse " HTTP" " Http" " example.com" (by decide)).2.1
      (by decide)⟩

/-- C20: the resolver is idempotent on the target for a fixed hint: if it succeeds on
`(h, s)` with `(m, t)`, it succeeds on `(h, t)` with the same `(m, t)`; so a scheme
prefix is not prepended a second time, and the normalized target is non-empty and
already trimmed. -/
theorem C20_resolve_idempotent (urlParse : String → Except String URL) (h s : String)
    (m : Mode) (t : String) (hr : ResolveModeAndTarget urlParse h s = ⟨m, t, none⟩) :
    ResolveModeAndTarget urlParse h t = ⟨m, t, none⟩ ∧ t ≠ "" ∧ TrimSpace t = t := by
  have hok : (ResolveModeAndTarget urlParse h s).err = none := by rw [hr]
  obtain ⟨hne, hcases⟩ := resolve_ok_cases urlParse h s hok
  have hsame : ∀ mode : Mode, ResolveModeAndTarget urlParse h s = ⟨mode, TrimSpace s, none⟩ →
      ResolveModeAndTarget urlParse h t = ⟨m, t, none⟩ ∧ t ≠ "" ∧ TrimSpace t = t := by
    intro mode he
    have ht : t = TrimSpace s := by
      have := congrArg Resolved.target (hr.symm.trans he)
      exact this
    rw [ht, resolve_TrimSpace, TrimSpace_idem]
    exact ⟨by rw [hr, ht], hne, rfl⟩
  rcases hcases with ⟨_, he⟩ | ⟨_, _, he⟩ | ⟨hm, _, _, he⟩ | ⟨_, _, he⟩ | ⟨hm, _, _, he⟩ |
    ⟨_, he | he | he⟩
  · exact hsame _ he
  · exact hsame _ he
  · have heq := hr.symm.trans he
    have ht : t = "http://" ++ TrimSpace s := congrArg Resolved.target heq
    have hmode : m = ModeHTTP := congrArg Resolved.mode heq
    have htrim : TrimSpace t = t := by
      rw [ht, TrimSpace_http_append, trimTrailingSpace_TrimSpace]
    have hne' : t ≠ "" := by rw [ht]; exact append_ne_empty _ _ (by decide)
    refine ⟨?_, hne', htrim⟩
    rw [resolve_http urlParse h t (by rw [htrim]; exact hne') hm, htrim, hmode]
    have hp : HasPrefix t "http://" = true := by rw [ht]; exact HasPrefix_append _ _
    simp [hp]
  · exact hsame _ he
  · have heq := hr.symm.trans he
    have ht : t = "https://" ++ TrimSpace s := congrArg Resolved.target heq
    have hmode : m = ModeHTTPS := congrArg Resolved.mode heq
    have htrim : TrimSpace t = t := by
      rw [ht, TrimSpace_https_append, trimTrailingSpace_TrimSpace]
    have hne' : t ≠ "" := by rw [ht]; exact append_ne_empty _ _ (by decide)
    refine ⟨?_, hne', htrim⟩
    rw [resolve_https urlParse h t (by rw [htrim]; exact hne') hm, htrim, hmode]
    have hp : HasPrefix t "https://" = true := by rw [ht]; exact HasPrefix_append _ _
    simp [hp]
  · exact hsame _ he
  · exact hsame _ he
  · exact hsame _ he

theorem C20_resolve_idempotent_witness :
    ResolveModeAndTarget schemeOnlyParse "http" " example.com " =
      ⟨ModeHTTP, "http://example.com", none⟩ ∧
    ResolveModeAndTarget schemeOnlyParse "http" "http://example.com" =
      ⟨ModeHTTP, "http://example.com", none⟩ ∧
    "http://example.com" ≠ "" ∧ TrimSpace "http://example.com" = "http://example.com" :=
  ⟨by decide,
    C20_resolve_idempotent schemeOnlyParse "http" " example.com " ModeHTTP
      "http://example.com" (by decide)⟩

end BeepBoop
